import Mathlib

/-!
# Binding definitions of the service-binding operator

A shallow embedding of `pkg/controller/servicebinding/binding/definition.go`:
the six `Definition` variants and their `Apply` methods, together with the
library functions they call (the `unstructured` accessors of
k8s.io/apimachinery, `base64.StdEncoding.DecodeString`, `fmt.Sprintf("%v", _)`).

Conventions of the embedding

* a Go `string` is a sequence of bytes: `GoString := List Nat`;
* a Go `map[string]T` is an association list `List (GoString × T)`; `m[k]` is
  `List.lookup k m`, `m[k] = v` is `mapSet m k v`, and `for k, v := range m`
  visits the entries in list order;
* the keys of a map are distinct, which the theorems about the contents of a map
  assume of the maps they are given (`List.Nodup`);
* a Go call that returns `(T, error)` and may fault at run time is an
  `Outcome T`: `ok`, `error` or `panic`;
* the dynamic client is a function of the resource, the namespace and the name.
-/

namespace Binding

/-! ## Data model -/

/-- A Go string: its bytes. -/
abbrev GoString := List Nat

/-- The bytes of a text literal (UTF-8). -/
def gostr (s : String) : GoString :=
  s.toList.flatMap (fun c => (String.utf8EncodeChar c).map UInt8.toNat)

/-- The dynamic values found in `Unstructured.Object`: the JSON values that
`runtime.DeepCopyJSONValue` accepts (nil, string, int64, float64, bool, map,
slice). A float64 is represented by the text that `%v` prints for it: the
definitions only print it or pass it on. -/
inductive Node where
  | null
  | str (s : GoString)
  | int (n : Int)
  | float (text : GoString)
  | bool (b : Bool)
  | map (m : List (GoString × Node))
  | slice (l : List Node)

/-- Go `map[string]interface{}`. -/
abbrev JSONMap := List (GoString × Node)

/-- Go `unstructured.Unstructured`. -/
structure Unstructured where
  Object : JSONMap

/-- Go `objectType`, a string. -/
abbrev objectType := GoString

def configMapObjectType : objectType := gostr "ConfigMap"
def secretObjectType : objectType := gostr "Secret"
def stringObjectType : objectType := gostr "string"
def emptyObjectType : objectType := gostr ""

/-- Go `schema.GroupVersionResource`. -/
structure GroupVersionResource where
  Group : GoString
  Version : GoString
  Resource : GoString
deriving DecidableEq

/-- The errors `Apply` can return. The text of an accessor error and the byte
offset of a base64 `CorruptInputError` are not modelled. -/
inductive Err where
  /-- Go `errors.New("not found")`. -/
  | notFound
  /-- Go `errors.New("kubeClient required for this functionality")`. -/
  | kubeClientRequired
  /-- The `accessor error` of the `unstructured` helpers: a node of the wrong shape. -/
  | accessor
  /-- Go `base64.CorruptInputError`. -/
  | corruptInput
  /-- An error returned by the dynamic client. -/
  | api (reason : GoString)
deriving DecidableEq

/-- The result of a Go call returning `(T, error)` that may also fault. -/
inductive Outcome (α : Type) where
  | ok (v : α)
  | error (e : Err)
  | panic

/-- The dynamic client, `Resource(resource).Namespace(ns).Get(name, opts)`. -/
abbrev KubeClient := GroupVersionResource → GoString → GoString → Except Err Unstructured

/-- The dynamic values stored in a `value`: a JSON value, or a `[]string`. -/
inductive Any where
  | node (n : Node)
  | strings (l : List GoString)

/-- Go `value{v: ...}`: `v` is a `map[string]interface{}` or, for
`mapFromDataFieldDefinition`, a `map[string]string`. -/
inductive Value where
  | anyMap (m : List (GoString × Any))
  | strMap (m : List (GoString × GoString))

/-- The output keys of a `Value`. -/
def Value.keys : Value → List GoString
  | .anyMap m => m.map Prod.fst
  | .strMap m => m.map Prod.fst

/-- Go `m[k] = v` on a map. -/
def mapSet {β : Type} : List (GoString × β) → GoString → β → List (GoString × β)
  | [], k, v => [(k, v)]
  | (k', v') :: rest, k, v =>
    if k' = k then (k, v) :: rest else (k', v') :: mapSet rest k v

/-! ## k8s.io/apimachinery `unstructured` accessors -/

/-- The loop of `NestedFieldNoCopy`, from the node `val` on: a nil value before
a remaining field reads as not found, a value that is not a map as an accessor
error. -/
def nestedFrom : Node → List GoString → Except Err (Option Node)
  | val, [] => .ok (some val)
  | .null, _ :: _ => .ok none
  | .map m, field :: rest =>
    match m.lookup field with
    | none => .ok none
    | some v => nestedFrom v rest
  | _, _ :: _ => .error .accessor

/-- Go `unstructured.NestedFieldNoCopy`: `(val, found, err)` is `.ok (some val)`
when found, `.ok none` when not found, `.error` on an accessor error. -/
def NestedFieldNoCopy (obj : JSONMap) (fields : List GoString) : Except Err (Option Node) :=
  nestedFrom (.map obj) fields

/-- Go `unstructured.NestedFieldCopy` (the deep copy is the identity on values). -/
def NestedFieldCopy (obj : JSONMap) (fields : List GoString) : Except Err (Option Node) :=
  NestedFieldNoCopy obj fields

/-- Go `unstructured.NestedString`. -/
def NestedString (obj : JSONMap) (fields : List GoString) : Except Err (Option GoString) :=
  match NestedFieldNoCopy obj fields with
  | .error e => .error e
  | .ok none => .ok none
  | .ok (some (.str s)) => .ok (some s)
  | .ok (some _) => .error .accessor

/-- Go `unstructured.NestedSlice`. -/
def NestedSlice (obj : JSONMap) (fields : List GoString) : Except Err (Option (List Node)) :=
  match NestedFieldNoCopy obj fields with
  | .error e => .error e
  | .ok none => .ok none
  | .ok (some (.slice l)) => .ok (some l)
  | .ok (some _) => .error .accessor

/-- The loop of `NestedStringMap` over the entries of the map. -/
def strMapLoop : JSONMap → List (GoString × GoString) → Except Err (List (GoString × GoString))
  | [], strMap => .ok strMap
  | (k, .str s) :: rest, strMap => strMapLoop rest (mapSet strMap k s)
  | (_, _) :: _, _ => .error .accessor

/-- Go `unstructured.NestedStringMap`. -/
def NestedStringMap (obj : JSONMap) (fields : List GoString) :
    Except Err (Option (List (GoString × GoString))) :=
  match NestedFieldNoCopy obj fields with
  | .error e => .error e
  | .ok none => .ok none
  | .ok (some (.map m)) =>
    match strMapLoop m [] with
    | .error e => .error e
    | .ok strMap => .ok (some strMap)
  | .ok (some _) => .error .accessor

/-- Go `(*Unstructured).GetNamespace`. -/
def GetNamespace (u : Unstructured) : GoString :=
  match NestedString u.Object [gostr "metadata", gostr "namespace"] with
  | .ok (some s) => s
  | _ => []

/-! ## Go `encoding/base64` and `fmt` -/

/-- The decode map of the standard base64 alphabet. -/
def sextet (c : Nat) : Option Nat :=
  if 65 ≤ c ∧ c ≤ 90 then some (c - 65)
  else if 97 ≤ c ∧ c ≤ 122 then some (c - 71)
  else if 48 ≤ c ∧ c ≤ 57 then some (c + 4)
  else if c = 43 then some 62
  else if c = 47 then some 63
  else none

/-- The quanta of four characters, the input being free of CR and LF; `61` is
the padding character `=`. The `fuel` bounds the number of quanta. -/
def decodeQuanta : Nat → List Nat → Option (List Nat)
  | _, [] => some []
  | 0, _ :: _ => none
  | fuel + 1, a :: b :: c :: d :: rest =>
    match sextet a, sextet b with
    | some x, some y =>
      if c = 61 ∧ d = 61 ∧ rest = [] then
        some [(x * 64 + y) / 16 % 256]
      else
        match sextet c with
        | none => none
        | some z =>
          if d = 61 ∧ rest = [] then
            some [(x * 64 + y) / 16 % 256, (y * 64 + z) / 4 % 256]
          else
            match sextet d, decodeQuanta fuel rest with
            | some w, some out =>
              some ((x * 64 + y) / 16 % 256 :: (y * 64 + z) / 4 % 256 :: (z * 64 + w) % 256 :: out)
            | _, _ => none
    | _, _ => none
  | _ + 1, _ => none

/-- Go `base64.StdEncoding.DecodeString`: standard alphabet, padding required,
CR and LF ignored, trailing bits not checked. -/
def DecodeString (s : GoString) : Except Err GoString :=
  match decodeQuanta s.length (s.filter (fun c => c ≠ 10 ∧ c ≠ 13)) with
  | some out => .ok out
  | none => .error .corruptInput

/-- Insertion of a formatted map entry by ascending key, as `fmt` prints maps. -/
def insertByKey (e : GoString × GoString) : List (GoString × GoString) → List (GoString × GoString)
  | [] => [e]
  | x :: rest => if e.1 < x.1 then e :: x :: rest else x :: insertByKey e rest

/-- Go `strings.Join`-like concatenation with single spaces. -/
def joinSpace : List GoString → GoString
  | [] => []
  | [x] => x
  | x :: y :: rest => x ++ 32 :: joinSpace (y :: rest)

mutual
/-- Go `fmt.Sprintf("%v", val)` for a JSON value. -/
def Sprintf_v : Node → GoString
  | .null => gostr "<nil>"
  | .str s => s
  | .int n => gostr (toString n)
  | .float text => text
  | .bool b => gostr (toString b)
  | .map m =>
    gostr "map[" ++ joinSpace (((Sprintf_entries m).foldr insertByKey []).map
      (fun e => e.1 ++ 58 :: e.2)) ++ gostr "]"
  | .slice l => gostr "[" ++ joinSpace (Sprintf_list l) ++ gostr "]"
/-- The elements of a slice, formatted. -/
def Sprintf_list : List Node → List GoString
  | [] => []
  | x :: rest => Sprintf_v x :: Sprintf_list rest
/-- The entries of a map, the contents formatted. -/
def Sprintf_entries : List (GoString × Node) → List (GoString × GoString)
  | [] => []
  | (k, v) :: rest => (k, Sprintf_v v) :: Sprintf_entries rest
end

/-! ## The six definitions -/

structure stringDefinition where
  outputName : GoString
  path : List GoString

/-- Go `(*stringDefinition).getOutputName`; `none` is the run-time fault of
`d.path[len(d.path)-1]` on an empty path. -/
def stringDefinition.getOutputName (d : stringDefinition) : Option GoString :=
  if d.outputName.length = 0 then d.path.getLast? else some d.outputName

/-- Go `(*stringDefinition).GetPath`; `none` is the run-time fault of
`d.path[0 : len(d.path)-1]` on an empty path. -/
def stringDefinition.GetPath (d : stringDefinition) : Option (List GoString) :=
  if d.path.length = 0 then none else some (d.path.take (d.path.length - 1))

/-- Go `(*stringDefinition).Apply`. -/
def stringDefinition.Apply (d : stringDefinition) (u : Unstructured) : Outcome Value :=
  match NestedFieldCopy u.Object d.path with
  | .error e => .error e
  | .ok none => .error .notFound
  | .ok (some val) =>
    match d.getOutputName with
    | none => .panic
    | some outputName => .ok (.anyMap [(outputName, .node (.str (Sprintf_v val)))])

/-- The `resource` variable of the two dereferencing `Apply` methods: the
zero value unless the object type is `Secret` or `ConfigMap`. -/
def resourceOf (t : objectType) : GroupVersionResource :=
  if t = secretObjectType then
    { Group := gostr "", Version := gostr "v1", Resource := gostr "secrets" }
  else if t = configMapObjectType then
    { Group := gostr "", Version := gostr "v1", Resource := gostr "configmaps" }
  else
    { Group := [], Version := [], Resource := [] }

structure stringFromDataFieldDefinition where
  kubeClient : Option KubeClient
  objectType : objectType
  outputName : GoString
  path : List GoString
  sourceKey : GoString

/-- Go `(*stringFromDataFieldDefinition).GetPath`. -/
def stringFromDataFieldDefinition.GetPath (d : stringFromDataFieldDefinition) :
    Option (List GoString) :=
  some d.path

/-- Go `(*stringFromDataFieldDefinition).Apply`. -/
def stringFromDataFieldDefinition.Apply (d : stringFromDataFieldDefinition)
    (u : Unstructured) : Outcome Value :=
  match d.kubeClient with
  | none => .error .kubeClientRequired
  | some kubeClient =>
    let resource := resourceOf d.objectType
    match NestedString u.Object d.path with
    | .error e => .error e
    | .ok none => .error .notFound
    | .ok (some resourceName) =>
      match kubeClient resource (GetNamespace u) resourceName with
      | .error e => .error e
      | .ok otherObj =>
        match NestedString otherObj.Object [gostr "data", d.sourceKey] with
        | .error e => .error e
        | .ok none => .error .notFound
        | .ok (some val) =>
          if d.objectType = secretObjectType then
            match DecodeString val with
            | .error e => .error e
            | .ok n => .ok (.anyMap [(gostr "", .node (.str n))])
          else
            .ok (.anyMap [(gostr "", .node (.str val))])

structure mapFromDataFieldDefinition where
  kubeClient : Option KubeClient
  objectType : objectType
  outputName : GoString
  sourceValue : GoString
  path : List GoString

/-- Go `(*mapFromDataFieldDefinition).GetPath`. -/
def mapFromDataFieldDefinition.GetPath (d : mapFromDataFieldDefinition) :
    Option (List GoString) :=
  some d.path

/-- The `for k, v := range val` loop of `(*mapFromDataFieldDefinition).Apply`. -/
def mapFromDataFieldDefinition.loop (d : mapFromDataFieldDefinition) :
    List (GoString × GoString) → List (GoString × GoString) →
      Except Err (List (GoString × GoString))
  | [], outputVal => .ok outputVal
  | (k, v) :: rest, outputVal =>
    if d.sourceValue.length > 0 ∧ k ≠ d.sourceValue then
      mapFromDataFieldDefinition.loop d rest outputVal
    else if d.objectType = secretObjectType then
      match DecodeString v with
      | .error e => .error e
      | .ok b => mapFromDataFieldDefinition.loop d rest (mapSet outputVal k b)
    else
      mapFromDataFieldDefinition.loop d rest (mapSet outputVal k v)

/-- Go `(*mapFromDataFieldDefinition).Apply`. -/
def mapFromDataFieldDefinition.Apply (d : mapFromDataFieldDefinition)
    (u : Unstructured) : Outcome Value :=
  match d.kubeClient with
  | none => .error .kubeClientRequired
  | some kubeClient =>
    let resource := resourceOf d.objectType
    match NestedString u.Object d.path with
    | .error e => .error e
    | .ok none => .error .notFound
    | .ok (some resourceName) =>
      match kubeClient resource (GetNamespace u) resourceName with
      | .error e => .error e
      | .ok otherObj =>
        match NestedStringMap otherObj.Object [gostr "data"] with
        | .error e => .error e
        | .ok none => .error .notFound
        | .ok (some val) =>
          match d.loop val [] with
          | .error e => .error e
          | .ok outputVal => .ok (.strMap outputVal)

structure stringOfMapDefinition where
  outputName : GoString
  path : List GoString

/-- Go `(*stringOfMapDefinition).GetPath`. -/
def stringOfMapDefinition.GetPath (d : stringOfMapDefinition) : Option (List GoString) :=
  some d.path

/-- Go `(*stringOfMapDefinition).Apply`. -/
def stringOfMapDefinition.Apply (d : stringOfMapDefinition) (u : Unstructured) :
    Outcome Value :=
  match NestedFieldNoCopy u.Object d.path with
  | .error e => .error e
  | .ok none => .error .notFound
  | .ok (some val) =>
    match (if d.outputName.length = 0 then d.path.getLast? else some d.outputName) with
    | none => .panic
    | some outputName => .ok (.anyMap [(outputName, .node val)])

structure sliceOfMapsFromPathDefinition where
  outputName : GoString
  path : List GoString
  sourceKey : GoString
  sourceValue : GoString

/-- Go `(*sliceOfMapsFromPathDefinition).GetPath`. -/
def sliceOfMapsFromPathDefinition.GetPath (d : sliceOfMapsFromPathDefinition) :
    Option (List GoString) :=
  if d.path.length = 0 then none else some (d.path.take (d.path.length - 1))

/-- The `for _, e := range val` loop of `(*sliceOfMapsFromPathDefinition).Apply`;
`none` is the run-time fault of the type assertion `key.(string)`. An absent
map entry reads as nil. -/
def sliceOfMapsFromPathDefinition.loop (d : sliceOfMapsFromPathDefinition) :
    List Node → JSONMap → Option JSONMap
  | [], v => some v
  | .map mm :: rest, v =>
    match mm.lookup d.sourceKey with
    | some (.str ks) =>
      sliceOfMapsFromPathDefinition.loop d rest
        (mapSet v ks ((mm.lookup d.sourceValue).getD .null))
    | _ => none
  | _ :: rest, v => sliceOfMapsFromPathDefinition.loop d rest v

/-- Go `(*sliceOfMapsFromPathDefinition).Apply`. -/
def sliceOfMapsFromPathDefinition.Apply (d : sliceOfMapsFromPathDefinition)
    (u : Unstructured) : Outcome Value :=
  match NestedSlice u.Object d.path with
  | .error e => .error e
  | .ok none => .error .notFound
  | .ok (some val) =>
    match d.loop val [] with
    | none => .panic
    | some v => .ok (.anyMap [(d.outputName, .node (.map v))])

structure sliceOfStringsFromPathDefinition where
  outputName : GoString
  path : List GoString
  sourceValue : GoString

/-- Go `(*sliceOfStringsFromPathDefinition).GetPath`. -/
def sliceOfStringsFromPathDefinition.GetPath (d : sliceOfStringsFromPathDefinition) :
    Option (List GoString) :=
  if d.path.length = 0 then none else some (d.path.take (d.path.length - 1))

/-- The `for _, e := range val` loop of `(*sliceOfStringsFromPathDefinition).Apply`;
`none` is the run-time fault of the type assertion `mm[d.sourceValue].(string)`. -/
def sliceOfStringsFromPathDefinition.loop (d : sliceOfStringsFromPathDefinition) :
    List Node → List GoString → Option (List GoString)
  | [], v => some v
  | .map mm :: rest, v =>
    match mm.lookup d.sourceValue with
    | some (.str sourceValue) =>
      sliceOfStringsFromPathDefinition.loop d rest (v ++ [sourceValue])
    | _ => none
  | _ :: rest, v => sliceOfStringsFromPathDefinition.loop d rest v

/-- Go `(*sliceOfStringsFromPathDefinition).Apply`. -/
def sliceOfStringsFromPathDefinition.Apply (d : sliceOfStringsFromPathDefinition)
    (u : Unstructured) : Outcome Value :=
  match NestedSlice u.Object d.path with
  | .error e => .error e
  | .ok none => .error .notFound
  | .ok (some val) =>
    match d.loop val [] with
    | none => .panic
    | some v => .ok (.anyMap [(d.outputName, .strings v)])

/-- Go interface `Definition`, with its six implementers. -/
inductive Definition where
  | string (d : stringDefinition)
  | stringFromDataField (d : stringFromDataFieldDefinition)
  | mapFromDataField (d : mapFromDataFieldDefinition)
  | stringOfMap (d : stringOfMapDefinition)
  | sliceOfMapsFromPath (d : sliceOfMapsFromPathDefinition)
  | sliceOfStringsFromPath (d : sliceOfStringsFromPathDefinition)

/-- Go `Definition.Apply`, by dynamic dispatch. -/
def Definition.Apply : Definition → Unstructured → Outcome Value
  | .string d, u => d.Apply u
  | .stringFromDataField d, u => d.Apply u
  | .mapFromDataField d, u => d.Apply u
  | .stringOfMap d, u => d.Apply u
  | .sliceOfMapsFromPath d, u => d.Apply u
  | .sliceOfStringsFromPath d, u => d.Apply u

/-- Go `Definition.GetPath`, by dynamic dispatch. -/
def Definition.GetPath : Definition → Option (List GoString)
  | .string d => d.GetPath
  | .stringFromDataField d => d.GetPath
  | .mapFromDataField d => d.GetPath
  | .stringOfMap d => d.GetPath
  | .sliceOfMapsFromPath d => d.GetPath
  | .sliceOfStringsFromPath d => d.GetPath

/-- The lookup path of a definition. -/
def Definition.path : Definition → List GoString
  | .string d => d.path
  | .stringFromDataField d => d.path
  | .mapFromDataField d => d.path
  | .stringOfMap d => d.path
  | .sliceOfMapsFromPath d => d.path
  | .sliceOfStringsFromPath d => d.path

/-! ## Specification vocabulary -/

/-- The entries of a string map, as the JSON nodes of a `data` section. -/
def strEntries (data : List (GoString × GoString)) : JSONMap :=
  data.map (fun e => (e.1, Node.str e.2))

/-- The lookup path does not resolve: some segment is a key absent from the
map reached by the preceding segments. -/
def keyAbsent : Node → List GoString → Prop
  | .map m, k :: rest =>
    match m.lookup k with
    | none => True
    | some v => keyAbsent v rest
  | _, _ => False

/-- The node is a map. -/
def Node.isMap : Node → Bool
  | .map _ => true
  | _ => false

/-- A definition that needs the dynamic client has one. -/
def Definition.hasClient : Definition → Prop
  | .stringFromDataField d => d.kubeClient ≠ none
  | .mapFromDataField d => d.kubeClient ≠ none
  | _ => True

/-- The decoder applied to one entry: base64 for `Secret`, nothing otherwise. -/
def decodeFor (t : objectType) (v : GoString) : Except Err GoString :=
  if t = secretObjectType then DecodeString v else .ok v

/-- The entry with key `k` passes the `sourceValue` filter. -/
def mapFromDataFieldDefinition.admits (d : mapFromDataFieldDefinition) (k : GoString) : Prop :=
  d.sourceValue.length = 0 ∨ k = d.sourceValue

instance (d : mapFromDataFieldDefinition) (k : GoString) : Decidable (d.admits k) := by
  unfold mapFromDataFieldDefinition.admits; infer_instance


/-! ## Example documents -/

/-- A source document in namespace `ns`. -/
def exampleDoc : Unstructured :=
  { Object :=
      [ (gostr "metadata", .map [(gostr "namespace", .str (gostr "ns"))]),
        (gostr "spec", .map
          [ (gostr "host", .str (gostr "db.local")),
            (gostr "port", .int 5432),
            (gostr "env", .slice
              [ .map [(gostr "name", .str (gostr "A")), (gostr "value", .str (gostr "1"))],
                .map [(gostr "name", .str (gostr "B")), (gostr "value", .str (gostr "2"))] ]) ]),
        (gostr "status", .map [(gostr "dbCredentials", .str (gostr "creds"))]) ] }

/-- The `data` section `{user: base64(alice), pass: base64(s3cret)}`. -/
def exampleData : List (GoString × GoString) :=
  [(gostr "user", gostr "YWxpY2U="), (gostr "pass", gostr "czNjcmV0")]

/-- A secondary resource with the `data` section `data`. -/
def resourceWithData (data : List (GoString × GoString)) : Unstructured :=
  { Object := [(gostr "data", .map (strEntries data))] }

/-- A client that knows one resource, `creds` in namespace `ns`, of the kind
`resource`, and reports every other one as missing. -/
def clientWith (resource : GroupVersionResource) (obj : Unstructured) : KubeClient :=
  fun r ns name =>
    if r = resource ∧ ns = gostr "ns" ∧ name = gostr "creds" then .ok obj
    else .error (.api (gostr "not found"))

/-- The resource `secrets` of the core API group. -/
def secretsResource : GroupVersionResource :=
  { Group := gostr "", Version := gostr "v1", Resource := gostr "secrets" }

/-- The resource `configmaps` of the core API group. -/
def configMapsResource : GroupVersionResource :=
  { Group := gostr "", Version := gostr "v1", Resource := gostr "configmaps" }

/-- A `mapFromDataFieldDefinition` on the path `status.dbCredentials`. -/
def exampleMapFromDataField (t : objectType) (sourceValue : GoString) (c : KubeClient) :
    mapFromDataFieldDefinition :=
  { kubeClient := some c, objectType := t, outputName := gostr "", sourceValue := sourceValue,
    path := [gostr "status", gostr "dbCredentials"] }

/-- A `stringFromDataFieldDefinition` on the path `status.dbCredentials`. -/
def exampleStringFromDataField (t : objectType) (sourceKey : GoString) (c : KubeClient) :
    stringFromDataFieldDefinition :=
  { kubeClient := some c, objectType := t, outputName := gostr "", path :=
      [gostr "status", gostr "dbCredentials"], sourceKey := sourceKey }

/-- The zero value of `schema.GroupVersionResource`. -/
def zeroResource : GroupVersionResource :=
  { Group := [], Version := [], Resource := [] }

/-- The `data` section `{user: alice}`, not encoded. -/
def examplePlainData : List (GoString × GoString) :=
  [(gostr "user", gostr "alice")]

/-- A client that answers every request with the same resource. -/
def constClient (obj : Unstructured) : KubeClient :=
  fun _ _ _ => .ok obj

/-- A document whose sequence at `spec.env` has a map element with a number at
the field `name`. -/
def numericNameDoc : Unstructured :=
  { Object :=
      [ (gostr "spec", .map
          [ (gostr "env", .slice
              [ .map [(gostr "name", .str (gostr "A")), (gostr "value", .str (gostr "1"))],
                .map [(gostr "name", .int 7), (gostr "value", .str (gostr "2"))] ]) ]) ] }

/-- The `sliceOfMapsFromPathDefinition` on `spec.env` with `sourceKey = name`,
`sourceValue = value` and `outputName = env`. -/
def exampleSliceOfMaps : sliceOfMapsFromPathDefinition :=
  { outputName := gostr "env", path := [gostr "spec", gostr "env"],
    sourceKey := gostr "name", sourceValue := gostr "value" }

/-- The `data` section `{user: base64(alice), pass: "!!!"}`, the second entry
not being base64. -/
def exampleBadData : List (GoString × GoString) :=
  [(gostr "user", gostr "YWxpY2U="), (gostr "pass", gostr "!!!")]

/-- The `data` section `{user: alice, token: YWxpY2U=}` of a `ConfigMap`: the
first entry is not base64, the second is. -/
def exampleConfigData : List (GoString × GoString) :=
  [(gostr "user", gostr "alice"), (gostr "token", gostr "YWxpY2U=")]

/-- The pair that a sequence element contributes to the inner map of
`sliceOfMapsFromPathDefinition.Apply`: none for an element that is not a map. -/
def sliceOfMapsFromPathDefinition.pair (d : sliceOfMapsFromPathDefinition) :
    Node → Option (GoString × Node)
  | .map mm =>
    match mm.lookup d.sourceKey with
    | some (.str ks) => some (ks, (mm.lookup d.sourceValue).getD .null)
    | _ => none
  | _ => none

/-- A document whose sequence at `spec.env` has two map elements with the same
string at the field `name`. -/
def duplicateNameDoc : Unstructured :=
  { Object :=
      [ (gostr "spec", .map
          [ (gostr "env", .slice
              [ .map [(gostr "name", .str (gostr "A")), (gostr "value", .str (gostr "1"))],
                .map [(gostr "name", .str (gostr "A")), (gostr "value", .str (gostr "2"))] ]) ]) ] }

/-- A document whose sequence at `spec.env` has elements that are not maps. -/
def mixedSequenceDoc : Unstructured :=
  { Object :=
      [ (gostr "spec", .map
          [ (gostr "env", .slice
              [ .map [(gostr "name", .str (gostr "A")), (gostr "value", .str (gostr "1"))],
                .str (gostr "stray"),
                .int 3,
                .map [(gostr "name", .str (gostr "B")), (gostr "value", .str (gostr "2"))] ]) ]) ] }

/-- The string that a sequence element contributes to the list of
`sliceOfStringsFromPathDefinition.Apply`: none for an element that is not a map. -/
def sliceOfStringsFromPathDefinition.field (d : sliceOfStringsFromPathDefinition) :
    Node → Option GoString
  | .map mm =>
    match mm.lookup d.sourceValue with
    | some (.str s) => some s
    | _ => none
  | _ => none

/-- The `sliceOfStringsFromPathDefinition` on `spec.env` with `sourceValue = value`
and `outputName = names`. -/
def exampleSliceOfStrings : sliceOfStringsFromPathDefinition :=
  { outputName := gostr "names", path := [gostr "spec", gostr "env"],
    sourceValue := gostr "value" }

/-- A secondary resource whose `data` section has no entry `user`. -/
def exampleOtherData : List (GoString × GoString) :=
  [(gostr "pass", gostr "czNjcmV0")]

/-- A document whose node at `spec.env` is a string and whose node at
`status.dbCredentials` is a map. -/
def wrongShapeDoc : Unstructured :=
  { Object :=
      [ (gostr "metadata", .map [(gostr "namespace", .str (gostr "ns"))]),
        (gostr "spec", .map [(gostr "env", .str (gostr "A=1"))]),
        (gostr "status", .map
          [(gostr "dbCredentials", .map [(gostr "name", .str (gostr "creds"))])]) ] }

/-- A secondary resource whose `data` section holds a number. -/
def numericDataResource : Unstructured :=
  { Object := [(gostr "data", .map [(gostr "user", .str (gostr "alice")),
      (gostr "port", .int 5432)])] }

/-- A document whose sequence at `spec.env` has a map element without the field
`value`. -/
def missingValueDoc : Unstructured :=
  { Object :=
      [ (gostr "spec", .map
          [ (gostr "env", .slice
              [ .map [(gostr "name", .str (gostr "A")), (gostr "value", .str (gostr "1"))],
                .map [(gostr "name", .str (gostr "B"))] ]) ]) ] }
/-! ## Maps as association lists -/

theorem lookup_cons_ite {β : Type} (a k : GoString) (v : β) (l : List (GoString × β)) :
    List.lookup a ((k, v) :: l) = if a = k then some v else List.lookup a l := by
  by_cases h : a = k
  · subst h; simp [List.lookup]
  · have hb : (a == k) = false := by simpa using h
    simp [List.lookup, hb, h]

theorem lookup_mapSet {β : Type} (m : List (GoString × β)) (k a : GoString) (v : β) :
    List.lookup a (mapSet m k v) = if a = k then some v else List.lookup a m := by
  induction m with
  | nil => simp [mapSet, lookup_cons_ite]
  | cons x rest ih =>
    obtain ⟨k', v'⟩ := x
    by_cases hk : k' = k
    · subst hk
      simp only [mapSet, if_true, lookup_cons_ite]
      by_cases ha : a = k' <;> simp [ha]
    · simp only [mapSet, hk, if_false, lookup_cons_ite, ih]
      by_cases ha : a = k
      · subst ha
        have : ¬ a = k' := fun h => hk h.symm
        simp [this]
      · simp [ha]

theorem mapSet_of_not_mem {β : Type} (m : List (GoString × β)) (k : GoString) (v : β)
    (h : k ∉ m.map Prod.fst) : mapSet m k v = m ++ [(k, v)] := by
  induction m with
  | nil => rfl
  | cons x rest ih =>
    obtain ⟨k', v'⟩ := x
    have hk : ¬ k' = k := by
      intro e; apply h; simp [e]
    have hr : k ∉ rest.map Prod.fst := by
      intro e; apply h; simp only [List.map_cons, List.mem_cons]; exact Or.inr e
    simp [mapSet, hk, ih hr]

theorem keys_mapSet {β : Type} (m : List (GoString × β)) (k a : GoString) (v : β) :
    a ∈ (mapSet m k v).map Prod.fst ↔ a = k ∨ a ∈ m.map Prod.fst := by
  induction m with
  | nil => simp [mapSet]
  | cons x rest ih =>
    obtain ⟨k', v'⟩ := x
    by_cases hk : k' = k
    · subst hk
      simp [mapSet]
    · simp only [mapSet, hk, if_false, List.map_cons, List.mem_cons, ih]
      tauto

theorem nodup_keys_mapSet {β : Type} (m : List (GoString × β)) (k : GoString) (v : β)
    (h : (m.map Prod.fst).Nodup) : ((mapSet m k v).map Prod.fst).Nodup := by
  induction m with
  | nil => simp [mapSet]
  | cons x rest ih =>
    obtain ⟨k', v'⟩ := x
    simp only [List.map_cons, List.nodup_cons] at h
    by_cases hk : k' = k
    · subst hk
      simp only [mapSet, if_true, List.map_cons, List.nodup_cons]
      exact h
    · simp only [mapSet, hk, if_false, List.map_cons, List.nodup_cons]
      refine ⟨?_, ih h.2⟩
      rw [keys_mapSet]
      rintro (e | e)
      · exact hk e
      · exact h.1 e

/-! ## The accessors on short paths and on string maps -/

theorem NestedFieldNoCopy_one (obj : JSONMap) (k : GoString) :
    NestedFieldNoCopy obj [k] = .ok (obj.lookup k) := by
  unfold NestedFieldNoCopy
  cases h : List.lookup k obj with
  | none => simp [nestedFrom, h]
  | some v => cases v <;> simp [nestedFrom, h]

theorem strMapLoop_strEntries (data acc : List (GoString × GoString))
    (h : ((acc ++ data).map Prod.fst).Nodup) :
    strMapLoop (strEntries data) acc = .ok (acc ++ data) := by
  induction data generalizing acc with
  | nil => simp [strEntries, strMapLoop]
  | cons x rest ih =>
    obtain ⟨k, s⟩ := x
    have hk : k ∉ acc.map Prod.fst := by
      intro hm
      rw [List.map_append, List.nodup_append] at h
      exact h.2.2 hm (by simp)
    have h2 : (((acc ++ [(k, s)]) ++ rest).map Prod.fst).Nodup := by
      simpa using h
    have := ih (acc ++ [(k, s)]) h2
    simp only [strEntries, List.map_cons, strMapLoop, mapSet_of_not_mem acc k s hk]
    simpa [strEntries] using this

/-- A `data` section that is a map of strings reads back as that map. -/
theorem NestedStringMap_data (obj : JSONMap) (data : List (GoString × GoString))
    (hdata : obj.lookup (gostr "data") = some (.map (strEntries data)))
    (hkeys : (data.map Prod.fst).Nodup) :
    NestedStringMap obj [gostr "data"] = .ok (some data) := by
  have h := strMapLoop_strEntries data [] (by simpa using hkeys)
  simp only [NestedStringMap, NestedFieldNoCopy_one, hdata, h, List.nil_append]

/-- The entries of a map that `strMapLoop` accepts are all strings. -/
theorem strMapLoop_ok_entries (m : JSONMap) (acc out : List (GoString × GoString))
    (h : strMapLoop m acc = .ok out) : ∃ data, m = strEntries data := by
  induction m generalizing acc with
  | nil => exact ⟨[], rfl⟩
  | cons x rest ih =>
    obtain ⟨k, v⟩ := x
    cases v with
    | str s =>
      simp only [strMapLoop] at h
      obtain ⟨data, hd⟩ := ih _ h
      exact ⟨(k, s) :: data, by simp [strEntries, hd]⟩
    | null => simp [strMapLoop] at h
    | int n => simp [strMapLoop] at h
    | float f => simp [strMapLoop] at h
    | bool b => simp [strMapLoop] at h
    | map m => simp [strMapLoop] at h
    | slice l => simp [strMapLoop] at h

/-! ## The decoding loop of `mapFromDataFieldDefinition` -/

theorem DecodeString_error (s : GoString) (e : Err) (h : DecodeString s = .error e) :
    e = .corruptInput := by
  unfold DecodeString at h
  split at h
  · cases h
  · cases h; rfl

theorem loop_cons_skip (d : mapFromDataFieldDefinition) (k v : GoString)
    (rest acc : List (GoString × GoString)) (h : ¬ d.admits k) :
    d.loop ((k, v) :: rest) acc = d.loop rest acc := by
  have h' : d.sourceValue.length > 0 ∧ k ≠ d.sourceValue := by
    unfold mapFromDataFieldDefinition.admits at h
    push_neg at h
    exact ⟨Nat.pos_of_ne_zero h.1, h.2⟩
  rw [mapFromDataFieldDefinition.loop, if_pos h']

theorem loop_cons_keep (d : mapFromDataFieldDefinition) (k v : GoString)
    (rest acc : List (GoString × GoString)) (h : d.admits k) :
    d.loop ((k, v) :: rest) acc =
      match decodeFor d.objectType v with
      | .error e => .error e
      | .ok b => d.loop rest (mapSet acc k b) := by
  have h' : ¬ (d.sourceValue.length > 0 ∧ k ≠ d.sourceValue) := by
    unfold mapFromDataFieldDefinition.admits at h
    rintro ⟨h1, h2⟩
    rcases h with h | h
    · omega
    · exact h2 h
  rw [mapFromDataFieldDefinition.loop, if_neg h']
  by_cases ht : d.objectType = secretObjectType
  · simp only [ht, if_true, decodeFor]
  · simp only [ht, if_false, decodeFor]

theorem decodeFor_error (t : objectType) (v : GoString) (e : Err)
    (h : decodeFor t v = .error e) : t = secretObjectType ∧ e = .corruptInput := by
  unfold decodeFor at h
  split at h
  · exact ⟨by assumption, DecodeString_error v e h⟩
  · cases h

theorem loop_lookup (d : mapFromDataFieldDefinition) (data acc : List (GoString × GoString))
    (hkeys : (data.map Prod.fst).Nodup)
    (hok : ∀ e ∈ data, d.admits e.1 → ∃ b, decodeFor d.objectType e.2 = .ok b) :
    ∃ out, d.loop data acc = .ok out ∧
      ∀ k, (out.lookup k).map Except.ok =
        if d.admits k ∧ k ∈ data.map Prod.fst then
          (data.lookup k).map (decodeFor d.objectType)
        else (acc.lookup k).map Except.ok := by
  induction data generalizing acc with
  | nil => exact ⟨acc, rfl, fun k => by simp⟩
  | cons x rest ih =>
    obtain ⟨k0, v0⟩ := x
    simp only [List.map_cons, List.nodup_cons] at hkeys
    have hrest : ∀ e ∈ rest, d.admits e.1 → ∃ b, decodeFor d.objectType e.2 = .ok b :=
      fun e he => hok e (List.mem_cons_of_mem _ he)
    by_cases hadm : d.admits k0
    · obtain ⟨b, hb⟩ := hok (k0, v0) (List.mem_cons_self _ _) hadm
      obtain ⟨out, hout, hl⟩ := ih (mapSet acc k0 b) hkeys.2 hrest
      refine ⟨out, ?_, ?_⟩
      · rw [loop_cons_keep d k0 v0 rest acc hadm, hb]
        exact hout
      · intro k
        rw [hl k, lookup_mapSet, lookup_cons_ite]
        by_cases hk : k = k0
        · subst hk
          simp [hkeys.1, hadm, hb]
        · have hm : (d.admits k ∧ k ∈ List.map Prod.fst ((k0, v0) :: rest)) ↔
              (d.admits k ∧ k ∈ rest.map Prod.fst) := by
            simp [List.mem_cons, hk]
          simp only [hk, if_false]
          by_cases hc : d.admits k ∧ k ∈ rest.map Prod.fst
          · rw [if_pos (hm.mpr hc), if_pos hc]
          · rw [if_neg (fun h => hc (hm.mp h)), if_neg hc]
    · obtain ⟨out, hout, hl⟩ := ih acc hkeys.2 hrest
      refine ⟨out, ?_, ?_⟩
      · rw [loop_cons_skip d k0 v0 rest acc hadm]
        exact hout
      · intro k
        rw [hl k, lookup_cons_ite]
        by_cases hk : k = k0
        · subst hk
          simp [hkeys.1, hadm]
        · have hm : (d.admits k ∧ k ∈ List.map Prod.fst ((k0, v0) :: rest)) ↔
              (d.admits k ∧ k ∈ rest.map Prod.fst) := by
            simp [List.mem_cons, hk]
          simp only [hk, if_false]
          by_cases hc : d.admits k ∧ k ∈ rest.map Prod.fst
          · rw [if_pos (hm.mpr hc), if_pos hc]
          · rw [if_neg (fun h => hc (hm.mp h)), if_neg hc]

theorem loop_keys (d : mapFromDataFieldDefinition) (data acc out : List (GoString × GoString))
    (h : d.loop data acc = .ok out) (k : GoString) :
    k ∈ out.map Prod.fst ↔ k ∈ acc.map Prod.fst ∨ (d.admits k ∧ k ∈ data.map Prod.fst) := by
  induction data generalizing acc with
  | nil =>
    simp only [mapFromDataFieldDefinition.loop, Except.ok.injEq] at h
    subst h
    simp
  | cons x rest ih =>
    obtain ⟨k0, v0⟩ := x
    by_cases hadm : d.admits k0
    · rw [loop_cons_keep d k0 v0 rest acc hadm] at h
      cases hb : decodeFor d.objectType v0 with
      | error e => rw [hb] at h; cases h
      | ok b =>
        rw [hb] at h
        rw [ih _ h, keys_mapSet]
        simp only [List.map_cons, List.mem_cons]
        constructor
        · rintro ((e | e) | ⟨e1, e2⟩)
          · subst e; exact Or.inr ⟨hadm, Or.inl rfl⟩
          · exact Or.inl e
          · exact Or.inr ⟨e1, Or.inr e2⟩
        · rintro (e | ⟨e1, e2 | e2⟩)
          · exact Or.inl (Or.inr e)
          · exact Or.inl (Or.inl e2)
          · exact Or.inr ⟨e1, e2⟩
    · rw [loop_cons_skip d k0 v0 rest acc hadm] at h
      rw [ih _ h]
      simp only [List.map_cons, List.mem_cons]
      constructor
      · rintro (e | ⟨e1, e2⟩)
        · exact Or.inl e
        · exact Or.inr ⟨e1, Or.inr e2⟩
      · rintro (e | ⟨e1, e2 | e2⟩)
        · exact Or.inl e
        · subst e2; exact absurd e1 hadm
        · exact Or.inr ⟨e1, e2⟩

theorem loop_nodup (d : mapFromDataFieldDefinition) (data acc out : List (GoString × GoString))
    (h : d.loop data acc = .ok out) (hacc : (acc.map Prod.fst).Nodup) :
    (out.map Prod.fst).Nodup := by
  induction data generalizing acc with
  | nil =>
    simp only [mapFromDataFieldDefinition.loop, Except.ok.injEq] at h
    subst h
    exact hacc
  | cons x rest ih =>
    obtain ⟨k0, v0⟩ := x
    by_cases hadm : d.admits k0
    · rw [loop_cons_keep d k0 v0 rest acc hadm] at h
      cases hb : decodeFor d.objectType v0 with
      | error e => rw [hb] at h; cases h
      | ok b =>
        rw [hb] at h
        exact ih _ h (nodup_keys_mapSet acc k0 b hacc)
    · rw [loop_cons_skip d k0 v0 rest acc hadm] at h
      exact ih _ h hacc

theorem loop_error (d : mapFromDataFieldDefinition) (data acc : List (GoString × GoString))
    (h : ∃ e ∈ data, d.admits e.1 ∧ ∀ b, decodeFor d.objectType e.2 ≠ .ok b) :
    d.loop data acc = .error .corruptInput := by
  induction data generalizing acc with
  | nil => obtain ⟨e, he, _⟩ := h; cases he
  | cons x rest ih =>
    obtain ⟨k0, v0⟩ := x
    by_cases hadm : d.admits k0
    · rw [loop_cons_keep d k0 v0 rest acc hadm]
      cases hb : decodeFor d.objectType v0 with
      | error e => rw [(decodeFor_error _ _ _ hb).2]
      | ok b =>
        obtain ⟨e, he, h1, h2⟩ := h
        rcases List.mem_cons.mp he with rfl | he
        · exact absurd hb (h2 b)
        · exact ih _ ⟨e, he, h1, h2⟩
    · rw [loop_cons_skip d k0 v0 rest acc hadm]
      obtain ⟨e, he, h1, h2⟩ := h
      rcases List.mem_cons.mp he with rfl | he
      · exact absurd h1 hadm
      · exact ih _ ⟨e, he, h1, h2⟩


/-! ## C1: `mapFromDataFieldDefinition.Apply` on a `Secret` -/

/-- C1: `mapFromDataFieldDefinition.Apply` with a client, `objectType = Secret`, a
path that resolves to a string name and a fetched resource whose `data` section is
a map of strings that are all valid base64 returns a string map whose keys are
distinct and which, without a `sourceValue` filter, has exactly the keys of `data`,
each mapped to the decoding of its entry, and with the filter `sourceValue = k`
has at most the key `k`, mapped to the decoding of `data[k]`. -/
theorem C1_mapFromDataField_secret_decodes
    (d : mapFromDataFieldDefinition) (u : Unstructured) (kubeClient : KubeClient)
    (resourceName : GoString) (otherObj : Unstructured) (data : List (GoString × GoString))
    (hclient : d.kubeClient = some kubeClient)
    (htype : d.objectType = secretObjectType)
    (hpath : NestedString u.Object d.path = .ok (some resourceName))
    (hfetch : kubeClient (resourceOf d.objectType) (GetNamespace u) resourceName = .ok otherObj)
    (hdata : otherObj.Object.lookup (gostr "data") = some (.map (strEntries data)))
    (hkeys : (data.map Prod.fst).Nodup)
    (hvalid : ∀ e ∈ data, ∃ b, DecodeString e.2 = .ok b) :
    ∃ out, d.Apply u = .ok (.strMap out) ∧ (out.map Prod.fst).Nodup ∧
      (d.sourceValue = [] →
        ∀ k, (out.lookup k).map Except.ok = (data.lookup k).map DecodeString) ∧
      (d.sourceValue ≠ [] →
        ∀ k, (out.lookup k).map Except.ok =
          if k = d.sourceValue then (data.lookup k).map DecodeString else none) := by
  have hdec : ∀ v, decodeFor d.objectType v = DecodeString v := by
    intro v; simp [decodeFor, htype]
  have hok : ∀ e ∈ data, d.admits e.1 → ∃ b, decodeFor d.objectType e.2 = .ok b := by
    intro e he _
    rw [hdec]
    exact hvalid e he
  obtain ⟨out, hout, hl⟩ := loop_lookup d data [] hkeys hok
  have happly : d.Apply u = .ok (.strMap out) := by
    simp only [mapFromDataFieldDefinition.Apply, hclient, hpath, hfetch,
      NestedStringMap_data otherObj.Object data hdata hkeys, hout]
  have hfun : decodeFor d.objectType = DecodeString := funext hdec
  have hmem : ∀ k, k ∉ data.map Prod.fst → data.lookup k = none := by
    intro k hk
    rw [List.lookup_eq_none_iff]
    intro p hp
    have hne : k ≠ p.1 := fun e => hk (e ▸ List.mem_map_of_mem Prod.fst hp)
    simpa using hne
  refine ⟨out, happly, loop_nodup d data [] out hout (by simp), ?_, ?_⟩
  · intro hsv k
    rw [hl k, hfun]
    have hadm : d.admits k := Or.inl (by simp [hsv])
    by_cases hk : k ∈ data.map Prod.fst
    · rw [if_pos ⟨hadm, hk⟩]
    · rw [if_neg (fun h => hk h.2), hmem k hk]; rfl
  · intro hsv k
    rw [hl k, hfun]
    have hlen : ¬ d.sourceValue.length = 0 := by
      intro h; exact hsv (List.length_eq_zero.mp h)
    by_cases hk : k = d.sourceValue
    · have hadm : d.admits k := Or.inr hk
      rw [if_pos hk]
      by_cases hm : k ∈ data.map Prod.fst
      · rw [if_pos ⟨hadm, hm⟩]
      · rw [if_neg (fun h => hm h.2), hmem k hm]; rfl
    · have hadm : ¬ d.admits k := by
        rintro (h | h)
        · exact hlen h
        · exact hk h
      rw [if_neg hk, if_neg (fun h => hadm h.1)]; rfl

/-- Witness of C1: `data = {user: base64(alice), pass: base64(s3cret)}` gives
`{user: alice, pass: s3cret}`, and `{user: alice}` with `sourceValue = user`. -/
theorem C1_witness :
    (exampleMapFromDataField secretObjectType (gostr "")
        (clientWith secretsResource (resourceWithData exampleData))).Apply exampleDoc
      = .ok (.strMap [(gostr "user", gostr "alice"), (gostr "pass", gostr "s3cret")]) ∧
    (exampleMapFromDataField secretObjectType (gostr "user")
        (clientWith secretsResource (resourceWithData exampleData))).Apply exampleDoc
      = .ok (.strMap [(gostr "user", gostr "alice")]) ∧
    ∃ out, (exampleMapFromDataField secretObjectType (gostr "user")
        (clientWith secretsResource (resourceWithData exampleData))).Apply exampleDoc
        = .ok (.strMap out) ∧ (out.map Prod.fst).Nodup ∧
      (gostr "user" = [] →
        ∀ k, (out.lookup k).map Except.ok = (exampleData.lookup k).map DecodeString) ∧
      (gostr "user" ≠ [] →
        ∀ k, (out.lookup k).map Except.ok =
          if k = gostr "user" then (exampleData.lookup k).map DecodeString else none) :=
  ⟨rfl, rfl,
    C1_mapFromDataField_secret_decodes
      (exampleMapFromDataField secretObjectType (gostr "user")
        (clientWith secretsResource (resourceWithData exampleData)))
      exampleDoc (clientWith secretsResource (resourceWithData exampleData))
      (gostr "creds") (resourceWithData exampleData) exampleData
      rfl rfl rfl rfl rfl (by decide)
      (by
        intro e he
        simp only [exampleData, List.mem_cons, List.mem_singleton, List.not_mem_nil,
          or_false] at he
        rcases he with rfl | rfl
        · exact ⟨gostr "alice", rfl⟩
        · exact ⟨gostr "s3cret", rfl⟩)⟩

/-! ## C2: the output keys of a successful `Apply` -/

theorem string_ok_keys (d : stringDefinition) (u : Unstructured) (v : Value)
    (h : d.Apply u = .ok v) : v.keys.length = 1 := by
  unfold stringDefinition.Apply at h
  repeat' split at h
  all_goals first | (cases h; rfl) | cases h

theorem stringFromDataField_ok (d : stringFromDataFieldDefinition) (u : Unstructured)
    (v : Value) (h : d.Apply u = .ok v) :
    ∃ kubeClient resourceName otherObj val out,
      d.kubeClient = some kubeClient ∧
      NestedString u.Object d.path = .ok (some resourceName) ∧
      kubeClient (resourceOf d.objectType) (GetNamespace u) resourceName = .ok otherObj ∧
      NestedString otherObj.Object [gostr "data", d.sourceKey] = .ok (some val) ∧
      decodeFor d.objectType val = .ok out ∧
      v = .anyMap [(gostr "", .node (.str out))] := by
  unfold stringFromDataFieldDefinition.Apply at h
  split at h
  · cases h
  · rename_i kubeClient hc
    simp only at h
    split at h
    · cases h
    · cases h
    · rename_i resourceName hp
      split at h
      · cases h
      · rename_i otherObj hf
        split at h
        · cases h
        · cases h
        · rename_i val hd
          by_cases ht : d.objectType = secretObjectType
          · rw [if_pos ht] at h
            split at h
            · cases h
            · rename_i n hn
              cases h
              exact ⟨kubeClient, resourceName, otherObj, val, n, hc, hp, hf, hd,
                by simp [decodeFor, ht, hn], rfl⟩
          · rw [if_neg ht] at h
            cases h
            exact ⟨kubeClient, resourceName, otherObj, val, val, hc, hp, hf, hd,
              by simp [decodeFor, ht], rfl⟩

theorem stringFromDataField_ok_keys (d : stringFromDataFieldDefinition) (u : Unstructured)
    (v : Value) (h : d.Apply u = .ok v) : v.keys = [gostr ""] := by
  obtain ⟨_, _, _, _, _, _, _, _, _, _, hv⟩ := stringFromDataField_ok d u v h
  subst hv
  rfl

theorem stringOfMap_ok_keys (d : stringOfMapDefinition) (u : Unstructured) (v : Value)
    (h : d.Apply u = .ok v) : v.keys.length = 1 := by
  unfold stringOfMapDefinition.Apply at h
  repeat' split at h
  all_goals first | (cases h; rfl) | cases h

theorem sliceOfMaps_ok_keys (d : sliceOfMapsFromPathDefinition) (u : Unstructured) (v : Value)
    (h : d.Apply u = .ok v) : v.keys = [d.outputName] := by
  unfold sliceOfMapsFromPathDefinition.Apply at h
  repeat' split at h
  all_goals first | (cases h; rfl) | cases h

theorem sliceOfStrings_ok_keys (d : sliceOfStringsFromPathDefinition) (u : Unstructured)
    (v : Value) (h : d.Apply u = .ok v) : v.keys = [d.outputName] := by
  unfold sliceOfStringsFromPathDefinition.Apply at h
  repeat' split at h
  all_goals first | (cases h; rfl) | cases h

theorem mapFromDataField_ok (d : mapFromDataFieldDefinition) (u : Unstructured) (v : Value)
    (h : d.Apply u = .ok v) :
    ∃ kubeClient resourceName otherObj data out,
      d.kubeClient = some kubeClient ∧
      NestedString u.Object d.path = .ok (some resourceName) ∧
      kubeClient (resourceOf d.objectType) (GetNamespace u) resourceName = .ok otherObj ∧
      NestedStringMap otherObj.Object [gostr "data"] = .ok (some data) ∧
      d.loop data [] = .ok out ∧ v = .strMap out := by
  unfold mapFromDataFieldDefinition.Apply at h
  split at h
  · cases h
  · rename_i kubeClient hc
    simp only at h
    split at h
    · cases h
    · cases h
    · rename_i resourceName hp
      split at h
      · cases h
      · rename_i otherObj hf
        split at h
        · cases h
        · cases h
        · rename_i data hd
          split at h
          · cases h
          · rename_i out ho
            cases h
            exact ⟨kubeClient, resourceName, otherObj, data, out, hc, hp, hf, hd, ho, rfl⟩

/-- C2, refuted as stated: `mapFromDataFieldDefinition.Apply` succeeds with a `Value`
that has no output key when the `data` section of the secondary resource is empty,
and when the `sourceValue` filter matches no key of `data`; so it is not true that
every `Apply` returns an error or a `Value` with at least one output key. -/
theorem C2_counterexample :
    (Definition.mapFromDataField (exampleMapFromDataField secretObjectType (gostr "")
        (clientWith secretsResource (resourceWithData [])))).Apply exampleDoc
      = .ok (.strMap []) ∧
    (Definition.mapFromDataField (exampleMapFromDataField secretObjectType (gostr "token")
        (clientWith secretsResource (resourceWithData exampleData)))).Apply exampleDoc
      = .ok (.strMap []) ∧
    (Value.strMap []).keys = [] ∧
    ¬ (∀ (d : Definition) (u : Unstructured),
        (∃ e, d.Apply u = .error e) ∨ (∃ v, d.Apply u = .ok v ∧ v.keys ≠ [])) := by
  refine ⟨rfl, rfl, rfl, ?_⟩
  intro hall
  have h0 : (Definition.mapFromDataField (exampleMapFromDataField secretObjectType (gostr "")
      (clientWith secretsResource (resourceWithData [])))).Apply exampleDoc
      = .ok (.strMap []) := rfl
  rcases hall (Definition.mapFromDataField (exampleMapFromDataField secretObjectType (gostr "")
      (clientWith secretsResource (resourceWithData [])))) exampleDoc with ⟨e, he⟩ | ⟨v, hv, hk⟩
  · rw [h0] at he; cases he
  · rw [h0] at hv
    cases hv
    exact hk rfl

/-- C2, amended: whenever `Apply` returns a `Value`, that `Value` has exactly one
output key for the five variants other than `mapFromDataFieldDefinition`; for
`mapFromDataFieldDefinition` the client was configured, the path resolved to a name,
the resource was fetched and its `data` section read as a string map, and the
output keys of the `Value` are exactly the keys of `data` that pass the
`sourceValue` filter (none at all when `data` is empty or the filter matches no key). -/
theorem C2_apply_ok_keys (d : Definition) (u : Unstructured) (v : Value)
    (h : d.Apply u = .ok v) :
    match d with
    | .mapFromDataField m =>
      ∃ kubeClient resourceName otherObj data,
        m.kubeClient = some kubeClient ∧
        NestedString u.Object m.path = .ok (some resourceName) ∧
        kubeClient (resourceOf m.objectType) (GetNamespace u) resourceName = .ok otherObj ∧
        NestedStringMap otherObj.Object [gostr "data"] = .ok (some data) ∧
        ∀ k, k ∈ v.keys ↔ (m.admits k ∧ k ∈ data.map Prod.fst)
    | _ => v.keys.length = 1 := by
  cases d with
  | string s => exact string_ok_keys s u v h
  | stringFromDataField s =>
    have := stringFromDataField_ok_keys s u v h
    simp [this]
  | mapFromDataField m =>
    obtain ⟨kubeClient, resourceName, otherObj, data, out, hc, hp, hf, hd, ho, hv⟩ :=
      mapFromDataField_ok m u v h
    refine ⟨kubeClient, resourceName, otherObj, data, hc, hp, hf, hd, ?_⟩
    intro k
    subst hv
    have := loop_keys m data [] out ho k
    simpa [Value.keys] using this
  | stringOfMap s => exact stringOfMap_ok_keys s u v h
  | sliceOfMapsFromPath s =>
    have := sliceOfMaps_ok_keys s u v h
    simp [this]
  | sliceOfStringsFromPath s =>
    have := sliceOfStrings_ok_keys s u v h
    simp [this]

/-- Witness of C2 (amended): the `String` variant on `spec.host`, one output key,
and `mapFromDataFieldDefinition` with a filter that matches no key, no output key. -/
theorem C2_witness :
    (Value.anyMap [(gostr "host", .node (.str (gostr "db.local")))]).keys.length = 1 ∧
    ∃ kubeClient resourceName otherObj data,
      (exampleMapFromDataField secretObjectType (gostr "token")
        (clientWith secretsResource (resourceWithData exampleData))).kubeClient
          = some kubeClient ∧
      NestedString exampleDoc.Object (exampleMapFromDataField secretObjectType (gostr "token")
        (clientWith secretsResource (resourceWithData exampleData))).path
          = .ok (some resourceName) ∧
      kubeClient (resourceOf secretObjectType) (GetNamespace exampleDoc) resourceName
          = .ok otherObj ∧
      NestedStringMap otherObj.Object [gostr "data"] = .ok (some data) ∧
      ∀ k, k ∈ (Value.strMap []).keys ↔
        ((exampleMapFromDataField secretObjectType (gostr "token")
          (clientWith secretsResource (resourceWithData exampleData))).admits k ∧
          k ∈ data.map Prod.fst) :=
  ⟨C2_apply_ok_keys
      (.string { outputName := gostr "", path := [gostr "spec", gostr "host"] })
      exampleDoc (.anyMap [(gostr "host", .node (.str (gostr "db.local")))]) rfl,
    C2_apply_ok_keys
      (.mapFromDataField (exampleMapFromDataField secretObjectType (gostr "token")
        (clientWith secretsResource (resourceWithData exampleData))))
      exampleDoc (.strMap []) rfl⟩

/-! ## C3: the resource fetched by the dereferencing variants -/

theorem resourceOf_cases (t : objectType) (r : GroupVersionResource)
    (hr : (t = secretObjectType ∧ r = secretsResource) ∨
      (t = configMapObjectType ∧ r = configMapsResource) ∨
      (t ≠ secretObjectType ∧ t ≠ configMapObjectType ∧ r = zeroResource)) :
    resourceOf t = r := by
  rcases hr with ⟨h1, h2⟩ | ⟨h1, h2⟩ | ⟨h1, h2, h3⟩
  · subst h1 h2; rfl
  · subst h1 h2; rfl
  · subst h3; simp [resourceOf, h1, h2, zeroResource]

theorem loop_congr (d d' : mapFromDataFieldDefinition)
    (h1 : d.objectType = d'.objectType) (h2 : d.sourceValue = d'.sourceValue)
    (data acc : List (GoString × GoString)) : d.loop data acc = d'.loop data acc := by
  induction data generalizing acc with
  | nil => rfl
  | cons x rest ih =>
    obtain ⟨k, v⟩ := x
    simp only [mapFromDataFieldDefinition.loop, h1, h2, ih]

/-- C3, refuted as stated: with `objectType = "string"` (neither `Secret` nor
`ConfigMap`) and a client that answers for the zero-value resource, both
dereferencing variants return a `Value`; `Apply` has no unsupported-object-type
failure. -/
theorem C3_counterexample :
    stringObjectType ≠ secretObjectType ∧ stringObjectType ≠ configMapObjectType ∧
    (exampleStringFromDataField stringObjectType (gostr "user")
        (clientWith zeroResource (resourceWithData examplePlainData))).Apply exampleDoc
      = .ok (.anyMap [(gostr "", .node (.str (gostr "alice")))]) ∧
    (exampleMapFromDataField stringObjectType (gostr "")
        (clientWith zeroResource (resourceWithData examplePlainData))).Apply exampleDoc
      = .ok (.strMap [(gostr "user", gostr "alice")]) ∧
    ¬ (∀ (d : stringFromDataFieldDefinition) (u : Unstructured),
        d.kubeClient ≠ none → d.objectType ≠ secretObjectType →
        d.objectType ≠ configMapObjectType → ∃ e, d.Apply u = .error e) := by
  refine ⟨by decide, by decide, rfl, rfl, ?_⟩
  intro hall
  have h0 : (exampleStringFromDataField stringObjectType (gostr "user")
      (clientWith zeroResource (resourceWithData examplePlainData))).Apply exampleDoc
      = .ok (.anyMap [(gostr "", .node (.str (gostr "alice")))]) := rfl
  obtain ⟨e, he⟩ := hall (exampleStringFromDataField stringObjectType (gostr "user")
      (clientWith zeroResource (resourceWithData examplePlainData))) exampleDoc
      (by simp [exampleStringFromDataField]) (by decide) (by decide)
  rw [h0] at he
  cases he

/-- C3, amended: for both dereferencing variants with a client and a path that
resolves to a string name, the client is consulted for the resource `secrets` when
`objectType` is `Secret`, `configmaps` when it is `ConfigMap`, and the zero-value
(empty) resource otherwise, with no check of the object type: two clients that
agree on that resource, the namespace of the document and the name give the same
outcome, and an error of the client there is the outcome of `Apply`. -/
theorem C3_fetched_resource (t : objectType) (outputName sourceKey sourceValue : GoString)
    (path : List GoString) (c c' : KubeClient) (u : Unstructured) (resourceName : GoString)
    (r : GroupVersionResource)
    (hr : (t = secretObjectType ∧ r = secretsResource) ∨
      (t = configMapObjectType ∧ r = configMapsResource) ∨
      (t ≠ secretObjectType ∧ t ≠ configMapObjectType ∧ r = zeroResource))
    (hpath : NestedString u.Object path = .ok (some resourceName))
    (hagree : c r (GetNamespace u) resourceName = c' r (GetNamespace u) resourceName) :
    (stringFromDataFieldDefinition.mk (some c) t outputName path sourceKey).Apply u
      = (stringFromDataFieldDefinition.mk (some c') t outputName path sourceKey).Apply u ∧
    (mapFromDataFieldDefinition.mk (some c) t outputName sourceValue path).Apply u
      = (mapFromDataFieldDefinition.mk (some c') t outputName sourceValue path).Apply u ∧
    ∀ e, c r (GetNamespace u) resourceName = .error e →
      (stringFromDataFieldDefinition.mk (some c) t outputName path sourceKey).Apply u
        = .error e ∧
      (mapFromDataFieldDefinition.mk (some c) t outputName sourceValue path).Apply u
        = .error e := by
  have hres := resourceOf_cases t r hr
  refine ⟨?_, ?_, ?_⟩
  · simp only [stringFromDataFieldDefinition.Apply, hpath, hres, hagree]
  · simp only [mapFromDataFieldDefinition.Apply, hpath, hres, hagree]
    simp only [loop_congr
      (mapFromDataFieldDefinition.mk (some c) t outputName sourceValue path)
      (mapFromDataFieldDefinition.mk (some c') t outputName sourceValue path) rfl rfl]
  · intro e he
    constructor
    · simp only [stringFromDataFieldDefinition.Apply, hpath, hres, he]
    · simp only [mapFromDataFieldDefinition.Apply, hpath, hres, he]

/-- Witness of C3 (amended): `objectType = "string"`, a client that knows the
zero-value resource only and a client that answers everything. -/
theorem C3_witness :
    (stringFromDataFieldDefinition.mk
        (some (clientWith zeroResource (resourceWithData examplePlainData)))
        stringObjectType (gostr "") [gostr "status", gostr "dbCredentials"]
        (gostr "user")).Apply exampleDoc
      = (stringFromDataFieldDefinition.mk
        (some (constClient (resourceWithData examplePlainData)))
        stringObjectType (gostr "") [gostr "status", gostr "dbCredentials"]
        (gostr "user")).Apply exampleDoc ∧
    (mapFromDataFieldDefinition.mk
        (some (clientWith zeroResource (resourceWithData examplePlainData)))
        stringObjectType (gostr "") (gostr "") [gostr "status", gostr "dbCredentials"]).Apply
        exampleDoc
      = (mapFromDataFieldDefinition.mk
        (some (constClient (resourceWithData examplePlainData)))
        stringObjectType (gostr "") (gostr "") [gostr "status", gostr "dbCredentials"]).Apply
        exampleDoc ∧
    ∀ e, clientWith zeroResource (resourceWithData examplePlainData) zeroResource
        (GetNamespace exampleDoc) (gostr "creds") = .error e →
      (stringFromDataFieldDefinition.mk
        (some (clientWith zeroResource (resourceWithData examplePlainData)))
        stringObjectType (gostr "") [gostr "status", gostr "dbCredentials"]
        (gostr "user")).Apply exampleDoc = .error e ∧
      (mapFromDataFieldDefinition.mk
        (some (clientWith zeroResource (resourceWithData examplePlainData)))
        stringObjectType (gostr "") (gostr "") [gostr "status", gostr "dbCredentials"]).Apply
        exampleDoc = .error e :=
  C3_fetched_resource stringObjectType (gostr "") (gostr "user") (gostr "")
    [gostr "status", gostr "dbCredentials"]
    (clientWith zeroResource (resourceWithData examplePlainData))
    (constClient (resourceWithData examplePlainData)) exampleDoc (gostr "creds") zeroResource
    (Or.inr (Or.inr ⟨by decide, by decide, rfl⟩)) rfl rfl

/-! ## C4: a `sourceKey` field that is not a string -/

/-- The loop of `sliceOfMapsFromPathDefinition.Apply` faults on every sequence
that holds a map element without a string at `sourceKey`. -/
theorem sliceOfMaps_loop_faults (d : sliceOfMapsFromPathDefinition) (l : List Node)
    (acc : JSONMap)
    (h : ∃ mm, Node.map mm ∈ l ∧ ∀ ks, mm.lookup d.sourceKey ≠ some (.str ks)) :
    d.loop l acc = none := by
  induction l generalizing acc with
  | nil => obtain ⟨mm, hmm, _⟩ := h; cases hmm
  | cons e rest ih =>
    obtain ⟨mm, hmm, hkey⟩ := h
    have htail : (Node.map mm ∈ rest) → ∀ acc', d.loop rest acc' = none :=
      fun hr acc' => ih acc' ⟨mm, hr, hkey⟩
    cases e with
    | map m' =>
      rcases List.mem_cons.mp hmm with heq | hr
      · cases heq
        cases hl : List.lookup d.sourceKey mm with
        | none => simp [sliceOfMapsFromPathDefinition.loop, hl]
        | some key =>
          cases key with
          | str ks => exact absurd hl (hkey ks)
          | null => simp [sliceOfMapsFromPathDefinition.loop, hl]
          | int n => simp [sliceOfMapsFromPathDefinition.loop, hl]
          | float f => simp [sliceOfMapsFromPathDefinition.loop, hl]
          | bool b => simp [sliceOfMapsFromPathDefinition.loop, hl]
          | map m => simp [sliceOfMapsFromPathDefinition.loop, hl]
          | slice s => simp [sliceOfMapsFromPathDefinition.loop, hl]
      · cases hl : List.lookup d.sourceKey m' with
        | none => simp [sliceOfMapsFromPathDefinition.loop, hl]
        | some key =>
          cases key with
          | str ks => simp only [sliceOfMapsFromPathDefinition.loop, hl]; exact htail hr _
          | null => simp [sliceOfMapsFromPathDefinition.loop, hl]
          | int n => simp [sliceOfMapsFromPathDefinition.loop, hl]
          | float f => simp [sliceOfMapsFromPathDefinition.loop, hl]
          | bool b => simp [sliceOfMapsFromPathDefinition.loop, hl]
          | map m => simp [sliceOfMapsFromPathDefinition.loop, hl]
          | slice s => simp [sliceOfMapsFromPathDefinition.loop, hl]
    | null =>
      rcases List.mem_cons.mp hmm with heq | hr
      · cases heq
      · simp only [sliceOfMapsFromPathDefinition.loop]; exact htail hr _
    | str s =>
      rcases List.mem_cons.mp hmm with heq | hr
      · cases heq
      · simp only [sliceOfMapsFromPathDefinition.loop]; exact htail hr _
    | int n =>
      rcases List.mem_cons.mp hmm with heq | hr
      · cases heq
      · simp only [sliceOfMapsFromPathDefinition.loop]; exact htail hr _
    | float f =>
      rcases List.mem_cons.mp hmm with heq | hr
      · cases heq
      · simp only [sliceOfMapsFromPathDefinition.loop]; exact htail hr _
    | bool b =>
      rcases List.mem_cons.mp hmm with heq | hr
      · cases heq
      · simp only [sliceOfMapsFromPathDefinition.loop]; exact htail hr _
    | slice s =>
      rcases List.mem_cons.mp hmm with heq | hr
      · cases heq
      · simp only [sliceOfMapsFromPathDefinition.loop]; exact htail hr _

/-- `sliceOfMapsFromPathDefinition.Apply` faults on every document whose path
resolves to a sequence that holds a map element without a string at `sourceKey`. -/
theorem sliceOfMaps_apply_faults (d : sliceOfMapsFromPathDefinition) (u : Unstructured)
    (l : List Node) (hpath : NestedSlice u.Object d.path = .ok (some l))
    (h : ∃ mm, Node.map mm ∈ l ∧ ∀ ks, mm.lookup d.sourceKey ≠ some (.str ks)) :
    d.Apply u = .panic := by
  simp only [sliceOfMapsFromPathDefinition.Apply, hpath, sliceOfMaps_loop_faults d l [] h]

/-- C4, the code at the failing input: on the sequence
`[{name: A, value: 1}, {name: 7, value: 2}]` with `sourceKey = name`, where the
field `name` of the second element is a number, `Apply` neither returns an error
nor a `Value`: the type assertion `key.(string)` faults. -/
theorem C4_sliceOfMaps_faults :
    exampleSliceOfMaps.Apply numericNameDoc = .panic ∧
    (∀ e, exampleSliceOfMaps.Apply numericNameDoc ≠ .error e) ∧
    (∀ v, exampleSliceOfMaps.Apply numericNameDoc ≠ .ok v) := by
  have h : exampleSliceOfMaps.Apply numericNameDoc = .panic :=
    sliceOfMaps_apply_faults exampleSliceOfMaps numericNameDoc _ rfl
      ⟨[(gostr "name", .int 7), (gostr "value", .str (gostr "2"))],
        by simp, by
          intro ks hks
          have h7 : List.lookup exampleSliceOfMaps.sourceKey
              [(gostr "name", Node.int 7), (gostr "value", .str (gostr "2"))]
              = some (.int 7) := rfl
          rw [h7] at hks
          cases hks⟩
  refine ⟨h, ?_, ?_⟩
  · intro e he; rw [h] at he; cases he
  · intro v hv; rw [h] at hv; cases hv

/-! ## C5 and C6: decoding by object type -/

theorem lookup_eq_none_of_not_mem {β : Type} (l : List (GoString × β)) (k : GoString)
    (hk : k ∉ l.map Prod.fst) : l.lookup k = none := by
  rw [List.lookup_eq_none_iff]
  intro p hp
  have hne : k ≠ p.1 := fun e => hk (e ▸ List.mem_map_of_mem Prod.fst hp)
  simpa using hne

/-- C5: with `objectType = Secret`, a client, a path that resolves to a name and a
fetched resource, `stringFromDataFieldDefinition.Apply` fails with the base64
decode error when `data[sourceKey]` is a string that is not valid base64, and
`mapFromDataFieldDefinition.Apply` without a `sourceValue` filter fails with it
when some entry of the string map `data` is not valid base64; no `Value` is
returned. -/
theorem C5_secret_malformed_base64 (outputName sourceKey : GoString) (path : List GoString)
    (c : KubeClient) (u : Unstructured) (resourceName : GoString) (otherObj : Unstructured)
    (hpath : NestedString u.Object path = .ok (some resourceName))
    (hfetch : c (resourceOf secretObjectType) (GetNamespace u) resourceName = .ok otherObj) :
    (∀ raw, NestedString otherObj.Object [gostr "data", sourceKey] = .ok (some raw) →
      (∀ b, DecodeString raw ≠ .ok b) →
      (stringFromDataFieldDefinition.mk (some c) secretObjectType outputName path
        sourceKey).Apply u = .error .corruptInput) ∧
    (∀ data : List (GoString × GoString),
      otherObj.Object.lookup (gostr "data") = some (.map (strEntries data)) →
      (data.map Prod.fst).Nodup →
      (∃ e ∈ data, ∀ b, DecodeString e.2 ≠ .ok b) →
      (mapFromDataFieldDefinition.mk (some c) secretObjectType outputName [] path).Apply u
        = .error .corruptInput) := by
  constructor
  · intro raw hraw hbad
    cases hd : DecodeString raw with
    | ok b => exact absurd hd (hbad b)
    | error e =>
      have he := DecodeString_error raw e hd
      subst he
      simp only [stringFromDataFieldDefinition.Apply, hpath, hfetch, hraw, if_true, hd]
  · intro data hdata hkeys hbad
    obtain ⟨e, he, hbe⟩ := hbad
    have hloop := loop_error
      (mapFromDataFieldDefinition.mk (some c) secretObjectType outputName [] path) data []
      ⟨e, he, Or.inl rfl, by
        intro b hb
        apply hbe b
        simpa [decodeFor] using hb⟩
    simp only [mapFromDataFieldDefinition.Apply, hpath, hfetch,
      NestedStringMap_data otherObj.Object data hdata hkeys, hloop]

theorem DecodeString_bang (b : GoString) : DecodeString (gostr "!!!") ≠ .ok b := by
  intro hb
  have h : DecodeString (gostr "!!!") = .error .corruptInput := rfl
  rw [h] at hb
  cases hb

/-- Witness of C5: on the secret `{user: base64(alice), pass: "!!!"}` both variants
fail with the decode error. -/
theorem C5_witness :
    (stringFromDataFieldDefinition.mk
        (some (clientWith secretsResource (resourceWithData exampleBadData)))
        secretObjectType (gostr "") [gostr "status", gostr "dbCredentials"]
        (gostr "pass")).Apply exampleDoc = .error .corruptInput ∧
    (mapFromDataFieldDefinition.mk
        (some (clientWith secretsResource (resourceWithData exampleBadData)))
        secretObjectType (gostr "") [] [gostr "status", gostr "dbCredentials"]).Apply exampleDoc
        = .error .corruptInput :=
  ⟨(C5_secret_malformed_base64 (gostr "") (gostr "pass")
      [gostr "status", gostr "dbCredentials"]
      (clientWith secretsResource (resourceWithData exampleBadData)) exampleDoc (gostr "creds")
      (resourceWithData exampleBadData) rfl rfl).1 (gostr "!!!") rfl DecodeString_bang,
    (C5_secret_malformed_base64 (gostr "") (gostr "pass")
      [gostr "status", gostr "dbCredentials"]
      (clientWith secretsResource (resourceWithData exampleBadData)) exampleDoc (gostr "creds")
      (resourceWithData exampleBadData) rfl rfl).2 exampleBadData rfl (by decide)
      ⟨(gostr "pass", gostr "!!!"), by simp [exampleBadData], DecodeString_bang⟩⟩

theorem option_map_ok_inj (a b : Option GoString)
    (h : a.map (Except.ok : GoString → Except Err GoString) = b.map Except.ok) : a = b := by
  cases a <;> cases b <;> simp_all

theorem keys_strEntries (data : List (GoString × GoString)) :
    (strEntries data).map Prod.fst = data.map Prod.fst := by
  simp [strEntries, List.map_map, Function.comp_def]

theorem lookup_strEntries (data : List (GoString × GoString)) (k : GoString) :
    (strEntries data).lookup k = (data.lookup k).map Node.str := by
  induction data with
  | nil => rfl
  | cons x rest ih =>
    obtain ⟨k', v'⟩ := x
    have : strEntries ((k', v') :: rest) = (k', Node.str v') :: strEntries rest := rfl
    rw [this, lookup_cons_ite, lookup_cons_ite, ih]
    by_cases hk : k = k' <;> simp [hk]

/-- Without decoding, the loop copies the entries that pass the filter. -/
theorem loop_lookup_plain (d : mapFromDataFieldDefinition) (data : List (GoString × GoString))
    (ht : d.objectType ≠ secretObjectType) (hkeys : (data.map Prod.fst).Nodup) :
    ∃ out, d.loop data [] = .ok out ∧
      ∀ k, out.lookup k = if d.admits k then data.lookup k else none := by
  have hdec : decodeFor d.objectType = Except.ok := by
    funext v; simp [decodeFor, ht]
  obtain ⟨out, hout, hl⟩ := loop_lookup d data [] hkeys
    (fun e _ _ => ⟨e.2, by rw [hdec]⟩)
  refine ⟨out, hout, fun k => ?_⟩
  apply option_map_ok_inj
  rw [hl k, hdec]
  by_cases hadm : d.admits k
  · rw [if_pos hadm]
    by_cases hk : k ∈ data.map Prod.fst
    · rw [if_pos ⟨hadm, hk⟩]
    · rw [if_neg (fun h => hk h.2), lookup_eq_none_of_not_mem data k hk]; rfl
  · rw [if_neg hadm, if_neg (fun h => hadm h.1)]; rfl

/-- C6: for an `objectType` other than `Secret`, with a client, a path that
resolves to a name and a fetched resource, every `Value` that `Apply` returns holds
the raw strings of the `data` section: `stringFromDataFieldDefinition` returns
`data[sourceKey]` itself, and `mapFromDataFieldDefinition` returns, for each key
that passes the filter, `data[k]` itself; nothing is decoded, whether or not the
string is valid base64. -/
theorem C6_non_secret_passthrough (t : objectType) (outputName sourceKey sourceValue : GoString)
    (path : List GoString) (c : KubeClient) (u : Unstructured) (resourceName : GoString)
    (otherObj : Unstructured)
    (ht : t ≠ secretObjectType)
    (hpath : NestedString u.Object path = .ok (some resourceName))
    (hfetch : c (resourceOf t) (GetNamespace u) resourceName = .ok otherObj) :
    (∀ v, (stringFromDataFieldDefinition.mk (some c) t outputName path sourceKey).Apply u
        = .ok v →
      ∃ raw, NestedString otherObj.Object [gostr "data", sourceKey] = .ok (some raw) ∧
        v = .anyMap [(gostr "", .node (.str raw))]) ∧
    (∀ v m, (mapFromDataFieldDefinition.mk (some c) t outputName sourceValue path).Apply u
        = .ok v →
      otherObj.Object.lookup (gostr "data") = some (.map m) → (m.map Prod.fst).Nodup →
      ∃ data out, m = strEntries data ∧ v = .strMap out ∧
        ∀ k, out.lookup k =
          if sourceValue.length = 0 ∨ k = sourceValue then data.lookup k else none) := by
  constructor
  · intro v h
    simp only [stringFromDataFieldDefinition.Apply, hpath, hfetch, ht, if_false] at h
    split at h
    · cases h
    · cases h
    · rename_i raw hraw
      cases h
      exact ⟨raw, hraw, rfl⟩
  · intro v m h hdata hnodup
    simp only [mapFromDataFieldDefinition.Apply, hpath, hfetch, NestedStringMap,
      NestedFieldNoCopy_one, hdata] at h
    cases hs : strMapLoop m [] with
    | error e => rw [hs] at h; cases h
    | ok strMap =>
      obtain ⟨data, hm⟩ := strMapLoop_ok_entries m [] strMap hs
      subst hm
      rw [keys_strEntries] at hnodup
      have hs2 := strMapLoop_strEntries data [] (by simpa using hnodup)
      obtain ⟨out, hout, hl⟩ := loop_lookup_plain
        (mapFromDataFieldDefinition.mk (some c) t outputName sourceValue path) data ht hnodup
      rw [hs2] at h
      simp only [List.nil_append, hout] at h
      cases h
      exact ⟨data, out, rfl, rfl, hl⟩

/-- Witness of C6: the `ConfigMap` `{user: alice, token: YWxpY2U=}` is returned as
it is, the entry that is valid base64 included. -/
theorem C6_witness :
    (stringFromDataFieldDefinition.mk
        (some (clientWith configMapsResource (resourceWithData exampleConfigData)))
        configMapObjectType (gostr "") [gostr "status", gostr "dbCredentials"]
        (gostr "token")).Apply exampleDoc
      = .ok (.anyMap [(gostr "", .node (.str (gostr "YWxpY2U=")))]) ∧
    (mapFromDataFieldDefinition.mk
        (some (clientWith configMapsResource (resourceWithData exampleConfigData)))
        configMapObjectType (gostr "") (gostr "")
        [gostr "status", gostr "dbCredentials"]).Apply exampleDoc
      = .ok (.strMap exampleConfigData) ∧
    (∃ raw, NestedString (resourceWithData exampleConfigData).Object
        [gostr "data", gostr "token"] = .ok (some raw) ∧
      Value.anyMap [(gostr "", .node (.str (gostr "YWxpY2U=")))]
        = .anyMap [(gostr "", .node (.str raw))]) ∧
    (∃ data out, strEntries exampleConfigData = strEntries data ∧
      Value.strMap exampleConfigData = .strMap out ∧
      ∀ k, out.lookup k =
        if (gostr "").length = 0 ∨ k = gostr "" then data.lookup k else none) :=
  ⟨rfl, rfl,
    (C6_non_secret_passthrough configMapObjectType (gostr "") (gostr "token") (gostr "")
      [gostr "status", gostr "dbCredentials"]
      (clientWith configMapsResource (resourceWithData exampleConfigData)) exampleDoc
      (gostr "creds") (resourceWithData exampleConfigData) (by decide) rfl rfl).1 _ rfl,
    (C6_non_secret_passthrough configMapObjectType (gostr "") (gostr "token") (gostr "")
      [gostr "status", gostr "dbCredentials"]
      (clientWith configMapsResource (resourceWithData exampleConfigData)) exampleDoc
      (gostr "creds") (resourceWithData exampleConfigData) (by decide) rfl rfl).2 _
      (strEntries exampleConfigData) rfl rfl (by decide)⟩

/-! ## C7: the `String` variant -/

/-- C7: for a `stringDefinition` with a non-empty path that resolves to a value `v`,
`Apply` returns the `Value` with the single output key `outputName`, or the last
path segment when `outputName` is empty, mapped to `fmt.Sprintf("%v", v)`, which is
`v` itself when `v` is a string. -/
theorem C7_string_apply (d : stringDefinition) (u : Unstructured) (v : Node)
    (hne : d.path ≠ [])
    (hres : NestedFieldNoCopy u.Object d.path = .ok (some v)) :
    d.Apply u = .ok (.anyMap
      [(if d.outputName = [] then d.path.getLast hne else d.outputName,
        .node (.str (Sprintf_v v)))]) ∧
    (∀ s, v = .str s → Sprintf_v v = s) := by
  constructor
  · by_cases ho : d.outputName = []
    · have hlast : d.path.getLast? = some (d.path.getLast hne) :=
        List.getLast?_eq_getLast _ hne
      simp only [stringDefinition.Apply, NestedFieldCopy, hres,
        stringDefinition.getOutputName, ho, List.length_nil, if_true, hlast]
    · have hlen : ¬ d.outputName.length = 0 := fun h => ho (List.length_eq_zero.mp h)
      simp only [stringDefinition.Apply, NestedFieldCopy, hres,
        stringDefinition.getOutputName, hlen, ho, if_false]
  · intro s hs
    subst hs
    simp [Sprintf_v]

/-- Witness of C7: the path `[spec, host]`, which resolves to `db.local`, with no
`outputName` gives `{host: db.local}`; the number at `[spec, port]` is printed. -/
theorem C7_witness :
    ((stringDefinition.mk (gostr "") [gostr "spec", gostr "host"]).Apply exampleDoc
      = .ok (.anyMap [(gostr "host", .node (.str (gostr "db.local")))]) ∧
      (∀ s, Node.str (gostr "db.local") = .str s → Sprintf_v (.str (gostr "db.local")) = s)) ∧
    (stringDefinition.mk (gostr "dbPort") [gostr "spec", gostr "port"]).Apply exampleDoc
      = .ok (.anyMap [(gostr "dbPort", .node (.str (gostr "5432")))]) :=
  ⟨C7_string_apply (stringDefinition.mk (gostr "") [gostr "spec", gostr "host"]) exampleDoc
      (.str (gostr "db.local")) (by decide) rfl,
    rfl⟩

/-! ## C8: `sliceOfMapsFromPathDefinition.Apply` -/

theorem sliceOfMaps_loop_eq (d : sliceOfMapsFromPathDefinition) (l : List Node) (acc : JSONMap)
    (hall : ∀ mm, Node.map mm ∈ l → ∃ ks, mm.lookup d.sourceKey = some (.str ks)) :
    d.loop l acc
      = some ((l.filterMap d.pair).foldl (fun m p => mapSet m p.1 p.2) acc) := by
  induction l generalizing acc with
  | nil => rfl
  | cons e rest ih =>
    have hrest : ∀ mm, Node.map mm ∈ rest → ∃ ks, mm.lookup d.sourceKey = some (.str ks) :=
      fun mm h => hall mm (List.mem_cons_of_mem _ h)
    cases e with
    | map mm =>
      obtain ⟨ks, hks⟩ := hall mm (List.mem_cons_self _ _)
      have hp : d.pair (.map mm) = some (ks, (mm.lookup d.sourceValue).getD .null) := by
        simp [sliceOfMapsFromPathDefinition.pair, hks]
      simp only [sliceOfMapsFromPathDefinition.loop, hks, List.filterMap_cons, hp,
        List.foldl_cons, ih _ hrest]
    | null =>
      simp only [sliceOfMapsFromPathDefinition.loop, List.filterMap_cons,
        sliceOfMapsFromPathDefinition.pair]
      exact ih acc hrest
    | str s =>
      simp only [sliceOfMapsFromPathDefinition.loop, List.filterMap_cons,
        sliceOfMapsFromPathDefinition.pair]
      exact ih acc hrest
    | int n =>
      simp only [sliceOfMapsFromPathDefinition.loop, List.filterMap_cons,
        sliceOfMapsFromPathDefinition.pair]
      exact ih acc hrest
    | float f =>
      simp only [sliceOfMapsFromPathDefinition.loop, List.filterMap_cons,
        sliceOfMapsFromPathDefinition.pair]
      exact ih acc hrest
    | bool b =>
      simp only [sliceOfMapsFromPathDefinition.loop, List.filterMap_cons,
        sliceOfMapsFromPathDefinition.pair]
      exact ih acc hrest
    | slice s =>
      simp only [sliceOfMapsFromPathDefinition.loop, List.filterMap_cons,
        sliceOfMapsFromPathDefinition.pair]
      exact ih acc hrest

theorem foldl_mapSet_keys (ps : List (GoString × Node)) (acc : JSONMap) (k : GoString) :
    k ∈ (ps.foldl (fun m p => mapSet m p.1 p.2) acc).map Prod.fst
      ↔ k ∈ acc.map Prod.fst ∨ k ∈ ps.map Prod.fst := by
  induction ps generalizing acc with
  | nil => simp
  | cons p rest ih =>
    rw [List.foldl_cons, ih, keys_mapSet]
    simp only [List.map_cons, List.mem_cons]
    tauto

theorem foldl_mapSet_nodup (ps : List (GoString × Node)) (acc : JSONMap)
    (h : (acc.map Prod.fst).Nodup) :
    ((ps.foldl (fun m p => mapSet m p.1 p.2) acc).map Prod.fst).Nodup := by
  induction ps generalizing acc with
  | nil => exact h
  | cons p rest ih =>
    rw [List.foldl_cons]
    exact ih _ (nodup_keys_mapSet acc p.1 p.2 h)

theorem foldl_mapSet_lookup_of_not_mem (ps : List (GoString × Node)) (acc : JSONMap)
    (k : GoString) (hk : k ∉ ps.map Prod.fst) :
    (ps.foldl (fun m p => mapSet m p.1 p.2) acc).lookup k = acc.lookup k := by
  induction ps generalizing acc with
  | nil => rfl
  | cons p rest ih =>
    have h1 : ¬ k = p.1 := fun e => hk (by simp [e])
    have h2 : k ∉ rest.map Prod.fst := fun e => hk (by simp [e])
    rw [List.foldl_cons, ih _ h2, lookup_mapSet, if_neg h1]

/-- The last pair with a given key decides the content of that key. -/
theorem foldl_mapSet_lookup_last (front back : List (GoString × Node)) (acc : JSONMap)
    (k : GoString) (v : Node) (hk : k ∉ back.map Prod.fst) :
    ((front ++ (k, v) :: back).foldl (fun m p => mapSet m p.1 p.2) acc).lookup k = some v := by
  rw [List.foldl_append, List.foldl_cons, foldl_mapSet_lookup_of_not_mem back _ k hk,
    lookup_mapSet, if_pos rfl]

theorem mem_keys_pairs (d : sliceOfMapsFromPathDefinition) (l : List Node) (k : GoString) :
    k ∈ (l.filterMap d.pair).map Prod.fst
      ↔ ∃ mm, Node.map mm ∈ l ∧ mm.lookup d.sourceKey = some (.str k) := by
  simp only [List.mem_map, List.mem_filterMap]
  constructor
  · rintro ⟨p, ⟨e, he, hp⟩, rfl⟩
    cases e with
    | map mm =>
      cases hl : List.lookup d.sourceKey mm with
      | none => simp [sliceOfMapsFromPathDefinition.pair, hl] at hp
      | some key =>
        cases key with
        | str ks =>
          simp only [sliceOfMapsFromPathDefinition.pair, hl, Option.some.injEq] at hp
          subst hp
          exact ⟨mm, he, hl⟩
        | null => simp [sliceOfMapsFromPathDefinition.pair, hl] at hp
        | int n => simp [sliceOfMapsFromPathDefinition.pair, hl] at hp
        | float f => simp [sliceOfMapsFromPathDefinition.pair, hl] at hp
        | bool b => simp [sliceOfMapsFromPathDefinition.pair, hl] at hp
        | map m => simp [sliceOfMapsFromPathDefinition.pair, hl] at hp
        | slice s => simp [sliceOfMapsFromPathDefinition.pair, hl] at hp
    | null => simp [sliceOfMapsFromPathDefinition.pair] at hp
    | str s => simp [sliceOfMapsFromPathDefinition.pair] at hp
    | int n => simp [sliceOfMapsFromPathDefinition.pair] at hp
    | float f => simp [sliceOfMapsFromPathDefinition.pair] at hp
    | bool b => simp [sliceOfMapsFromPathDefinition.pair] at hp
    | slice s => simp [sliceOfMapsFromPathDefinition.pair] at hp
  · rintro ⟨mm, he, hl⟩
    exact ⟨(k, (mm.lookup d.sourceValue).getD .null), ⟨.map mm, he,
      by simp [sliceOfMapsFromPathDefinition.pair, hl]⟩, rfl⟩

/-- C8, refuted as stated: on the sequence `[{name: A, value: 1}, {name: A, value: 2}]`
every map element has a string at `sourceKey`, `Apply` returns `{env: {A: 2}}`, and
the inner map does not hold the pair `A -> 1` of the first element. -/
theorem C8_counterexample :
    exampleSliceOfMaps.Apply duplicateNameDoc
      = .ok (.anyMap [(gostr "env", .node (.map [(gostr "A", .str (gostr "2"))]))]) ∧
    ¬ (∃ m, exampleSliceOfMaps.Apply duplicateNameDoc
          = .ok (.anyMap [(gostr "env", .node (.map m))]) ∧
        ∀ mm ks,
          Node.map mm ∈
            [Node.map [(gostr "name", .str (gostr "A")), (gostr "value", .str (gostr "1"))],
              Node.map [(gostr "name", .str (gostr "A")), (gostr "value", .str (gostr "2"))]] →
          mm.lookup (gostr "name") = some (.str ks) →
          m.lookup ks = some ((mm.lookup (gostr "value")).getD .null)) := by
  have h0 : exampleSliceOfMaps.Apply duplicateNameDoc
      = .ok (.anyMap [(gostr "env", .node (.map [(gostr "A", .str (gostr "2"))]))]) := rfl
  refine ⟨h0, ?_⟩
  rintro ⟨m, hm, hpairs⟩
  rw [h0] at hm
  simp only [Outcome.ok.injEq, Value.anyMap.injEq, List.cons.injEq, Prod.mk.injEq,
    Any.node.injEq, Node.map.injEq, and_true, true_and] at hm
  subst hm
  have h1 := hpairs [(gostr "name", .str (gostr "A")), (gostr "value", .str (gostr "1"))]
    (gostr "A") (by simp) rfl
  have h2 : List.lookup (gostr "A") [(gostr "A", Node.str (gostr "2"))]
      = some (.str (gostr "2")) := rfl
  have h3 : (List.lookup (gostr "value")
      [(gostr "name", Node.str (gostr "A")), (gostr "value", .str (gostr "1"))]).getD .null
      = .str (gostr "1") := rfl
  rw [h2, h3] at h1
  simp only [Option.some.injEq, Node.str.injEq] at h1
  exact absurd h1 (by decide)

/-- C8, amended: for a path that resolves to a sequence in which every map element
has a string at `sourceKey`, `Apply` returns `{outputName: m}` where the keys of `m`
are distinct and are exactly the `sourceKey` strings of the map elements, and `m`
maps the `sourceKey` string of a map element to its `sourceValue` field (null when
absent) whenever no later map element has the same `sourceKey` string; elements
that are not maps contribute nothing and cause no error. -/
theorem C8_sliceOfMaps_apply (d : sliceOfMapsFromPathDefinition) (u : Unstructured)
    (l : List Node)
    (hpath : NestedSlice u.Object d.path = .ok (some l))
    (hall : ∀ mm, Node.map mm ∈ l → ∃ ks, mm.lookup d.sourceKey = some (.str ks)) :
    ∃ m, d.Apply u = .ok (.anyMap [(d.outputName, .node (.map m))]) ∧
      (m.map Prod.fst).Nodup ∧
      (∀ k, k ∈ m.map Prod.fst ↔
        ∃ mm, Node.map mm ∈ l ∧ mm.lookup d.sourceKey = some (.str k)) ∧
      (∀ front mm back ks, l = front ++ Node.map mm :: back →
        mm.lookup d.sourceKey = some (.str ks) →
        (∀ mm', Node.map mm' ∈ back → mm'.lookup d.sourceKey ≠ some (.str ks)) →
        m.lookup ks = some ((mm.lookup d.sourceValue).getD .null)) := by
  refine ⟨(l.filterMap d.pair).foldl (fun m p => mapSet m p.1 p.2) [], ?_, ?_, ?_, ?_⟩
  · simp only [sliceOfMapsFromPathDefinition.Apply, hpath, sliceOfMaps_loop_eq d l [] hall]
  · exact foldl_mapSet_nodup _ [] (by simp)
  · intro k
    rw [foldl_mapSet_keys, mem_keys_pairs]
    simp
  · intro front mm back ks hl hks hlast
    have hp : d.pair (.map mm) = some (ks, (mm.lookup d.sourceValue).getD .null) := by
      simp [sliceOfMapsFromPathDefinition.pair, hks]
    have hback : ks ∉ (back.filterMap d.pair).map Prod.fst := by
      rw [mem_keys_pairs]
      rintro ⟨mm', hm', hk'⟩
      exact hlast mm' hm' hk'
    rw [hl, List.filterMap_append, List.filterMap_cons, hp]
    exact foldl_mapSet_lookup_last _ _ [] ks _ hback

/-- Witness of C8 (amended): `sourceKey = name`, `sourceValue = value` over
`[{name: A, value: 1}, {name: B, value: 2}]` with `outputName = env` gives
`{env: {A: 1, B: 2}}`, also with elements that are not maps in the sequence. -/
theorem C8_witness :
    exampleSliceOfMaps.Apply exampleDoc
      = .ok (.anyMap [(gostr "env", .node (.map
          [(gostr "A", .str (gostr "1")), (gostr "B", .str (gostr "2"))]))]) ∧
    exampleSliceOfMaps.Apply mixedSequenceDoc
      = .ok (.anyMap [(gostr "env", .node (.map
          [(gostr "A", .str (gostr "1")), (gostr "B", .str (gostr "2"))]))]) ∧
    ∃ m, exampleSliceOfMaps.Apply mixedSequenceDoc
        = .ok (.anyMap [(exampleSliceOfMaps.outputName, .node (.map m))]) ∧
      (m.map Prod.fst).Nodup ∧
      (∀ k, k ∈ m.map Prod.fst ↔
        ∃ mm, Node.map mm ∈
            [Node.map [(gostr "name", .str (gostr "A")), (gostr "value", .str (gostr "1"))],
              .str (gostr "stray"), .int 3,
              .map [(gostr "name", .str (gostr "B")), (gostr "value", .str (gostr "2"))]] ∧
          mm.lookup exampleSliceOfMaps.sourceKey = some (.str k)) ∧
      (∀ front mm back ks,
        [Node.map [(gostr "name", .str (gostr "A")), (gostr "value", .str (gostr "1"))],
          .str (gostr "stray"), .int 3,
          .map [(gostr "name", .str (gostr "B")), (gostr "value", .str (gostr "2"))]]
          = front ++ Node.map mm :: back →
        mm.lookup exampleSliceOfMaps.sourceKey = some (.str ks) →
        (∀ mm', Node.map mm' ∈ back →
          mm'.lookup exampleSliceOfMaps.sourceKey ≠ some (.str ks)) →
        m.lookup ks = some ((mm.lookup exampleSliceOfMaps.sourceValue).getD .null)) :=
  ⟨rfl, rfl,
    C8_sliceOfMaps_apply exampleSliceOfMaps mixedSequenceDoc _ rfl (by
      intro mm hmm
      simp only [List.mem_cons, Node.map.injEq, List.mem_singleton, List.not_mem_nil,
        or_false, false_or, reduceCtorEq] at hmm
      rcases hmm with rfl | rfl
      · exact ⟨gostr "A", rfl⟩
      · exact ⟨gostr "B", rfl⟩)⟩

/-! ## C9: `sliceOfStringsFromPathDefinition.Apply` -/

theorem sliceOfStrings_loop_eq (d : sliceOfStringsFromPathDefinition) (l : List Node)
    (acc : List GoString)
    (hall : ∀ mm, Node.map mm ∈ l → ∃ s, mm.lookup d.sourceValue = some (.str s)) :
    d.loop l acc = some (acc ++ l.filterMap d.field) := by
  induction l generalizing acc with
  | nil => simp [sliceOfStringsFromPathDefinition.loop]
  | cons e rest ih =>
    have hrest : ∀ mm, Node.map mm ∈ rest → ∃ s, mm.lookup d.sourceValue = some (.str s) :=
      fun mm h => hall mm (List.mem_cons_of_mem _ h)
    cases e with
    | map mm =>
      obtain ⟨s, hs⟩ := hall mm (List.mem_cons_self _ _)
      have hf : d.field (.map mm) = some s := by
        simp [sliceOfStringsFromPathDefinition.field, hs]
      simp only [sliceOfStringsFromPathDefinition.loop, hs, List.filterMap_cons, hf,
        ih _ hrest, List.append_assoc, List.singleton_append]
    | null =>
      simp only [sliceOfStringsFromPathDefinition.loop, List.filterMap_cons,
        sliceOfStringsFromPathDefinition.field]
      exact ih acc hrest
    | str s =>
      simp only [sliceOfStringsFromPathDefinition.loop, List.filterMap_cons,
        sliceOfStringsFromPathDefinition.field]
      exact ih acc hrest
    | int n =>
      simp only [sliceOfStringsFromPathDefinition.loop, List.filterMap_cons,
        sliceOfStringsFromPathDefinition.field]
      exact ih acc hrest
    | float f =>
      simp only [sliceOfStringsFromPathDefinition.loop, List.filterMap_cons,
        sliceOfStringsFromPathDefinition.field]
      exact ih acc hrest
    | bool b =>
      simp only [sliceOfStringsFromPathDefinition.loop, List.filterMap_cons,
        sliceOfStringsFromPathDefinition.field]
      exact ih acc hrest
    | slice s =>
      simp only [sliceOfStringsFromPathDefinition.loop, List.filterMap_cons,
        sliceOfStringsFromPathDefinition.field]
      exact ih acc hrest

theorem forall2_filter_field (d : sliceOfStringsFromPathDefinition) (l : List Node)
    (hall : ∀ mm, Node.map mm ∈ l → ∃ s, mm.lookup d.sourceValue = some (.str s)) :
    List.Forall₂ (fun e s => ∃ mm, e = Node.map mm ∧ mm.lookup d.sourceValue = some (.str s))
      (l.filter Node.isMap) (l.filterMap d.field) := by
  induction l with
  | nil => exact List.Forall₂.nil
  | cons e rest ih =>
    have hrest : ∀ mm, Node.map mm ∈ rest → ∃ s, mm.lookup d.sourceValue = some (.str s) :=
      fun mm h => hall mm (List.mem_cons_of_mem _ h)
    cases e with
    | map mm =>
      obtain ⟨s, hs⟩ := hall mm (List.mem_cons_self _ _)
      have hf : d.field (.map mm) = some s := by
        simp [sliceOfStringsFromPathDefinition.field, hs]
      have hm : Node.isMap (.map mm) = true := rfl
      rw [List.filter_cons_of_pos hm, List.filterMap_cons, hf]
      exact List.Forall₂.cons ⟨mm, rfl, hs⟩ (ih hrest)
    | null => simpa [Node.isMap, sliceOfStringsFromPathDefinition.field] using ih hrest
    | str s => simpa [Node.isMap, sliceOfStringsFromPathDefinition.field] using ih hrest
    | int n => simpa [Node.isMap, sliceOfStringsFromPathDefinition.field] using ih hrest
    | float f => simpa [Node.isMap, sliceOfStringsFromPathDefinition.field] using ih hrest
    | bool b => simpa [Node.isMap, sliceOfStringsFromPathDefinition.field] using ih hrest
    | slice s => simpa [Node.isMap, sliceOfStringsFromPathDefinition.field] using ih hrest

/-- C9: for a path that resolves to a sequence in which every map element has a
string at `sourceValue`, `Apply` returns `{outputName: out}` where `out` lists, in
sequence order, the `sourceValue` strings of the map elements: `out` matches the
sequence filtered to its map elements, element by element. -/
theorem C9_sliceOfStrings_apply (d : sliceOfStringsFromPathDefinition) (u : Unstructured)
    (l : List Node)
    (hpath : NestedSlice u.Object d.path = .ok (some l))
    (hall : ∀ mm, Node.map mm ∈ l → ∃ s, mm.lookup d.sourceValue = some (.str s)) :
    ∃ out, d.Apply u = .ok (.anyMap [(d.outputName, .strings out)]) ∧
      List.Forall₂
        (fun e s => ∃ mm, e = Node.map mm ∧ mm.lookup d.sourceValue = some (.str s))
        (l.filter Node.isMap) out := by
  refine ⟨l.filterMap d.field, ?_, forall2_filter_field d l hall⟩
  simp only [sliceOfStringsFromPathDefinition.Apply, hpath,
    sliceOfStrings_loop_eq d l [] hall, List.nil_append]

/-- Witness of C9: `sourceValue = value` over `[{name: A, value: 1}, {name: B, value: 2}]`
with `outputName = names` gives `{names: [1, 2]}`, also with elements that are not
maps in the sequence. -/
theorem C9_witness :
    exampleSliceOfStrings.Apply exampleDoc
      = .ok (.anyMap [(gostr "names", .strings [gostr "1", gostr "2"])]) ∧
    exampleSliceOfStrings.Apply mixedSequenceDoc
      = .ok (.anyMap [(gostr "names", .strings [gostr "1", gostr "2"])]) ∧
    ∃ out, exampleSliceOfStrings.Apply mixedSequenceDoc
        = .ok (.anyMap [(exampleSliceOfStrings.outputName, .strings out)]) ∧
      List.Forall₂
        (fun e s => ∃ mm, e = Node.map mm ∧
          mm.lookup exampleSliceOfStrings.sourceValue = some (.str s))
        (List.filter Node.isMap
          [Node.map [(gostr "name", .str (gostr "A")), (gostr "value", .str (gostr "1"))],
            .str (gostr "stray"), .int 3,
            .map [(gostr "name", .str (gostr "B")), (gostr "value", .str (gostr "2"))]])
        out :=
  ⟨rfl, rfl,
    C9_sliceOfStrings_apply exampleSliceOfStrings mixedSequenceDoc _ rfl (by
      intro mm hmm
      simp only [List.mem_cons, Node.map.injEq, List.mem_singleton, List.not_mem_nil,
        or_false, false_or, reduceCtorEq] at hmm
      rcases hmm with rfl | rfl
      · exact ⟨gostr "1", rfl⟩
      · exact ⟨gostr "2", rfl⟩)⟩

/-! ## C10: a lookup path that does not resolve -/

theorem nestedFrom_keyAbsent (n : Node) (path : List GoString) (h : keyAbsent n path) :
    nestedFrom n path = .ok none := by
  induction path generalizing n with
  | nil => cases n <;> simp [keyAbsent] at h
  | cons k rest ih =>
    cases n with
    | map m =>
      cases hl : List.lookup k m with
      | none => simp [nestedFrom, hl]
      | some v =>
        simp only [keyAbsent, hl] at h
        simp only [nestedFrom, hl]
        exact ih v h
    | null => simp [keyAbsent] at h
    | str s => simp [keyAbsent] at h
    | int i => simp [keyAbsent] at h
    | float f => simp [keyAbsent] at h
    | bool b => simp [keyAbsent] at h
    | slice s => simp [keyAbsent] at h

/-- C10: for each of the six variants, with a client configured for the two
dereferencing variants, on every document in which some segment of the lookup
path is a key absent from the map reached by the preceding segments, `Apply`
returns the error `not found` and no `Value`. -/
theorem C10_path_absent (d : Definition) (u : Unstructured) (hc : d.hasClient)
    (habs : keyAbsent (.map u.Object) d.path) : d.Apply u = .error .notFound := by
  cases d with
  | string s =>
    have h := nestedFrom_keyAbsent _ _ habs
    simp only [Definition.path] at h
    simp only [Definition.Apply, stringDefinition.Apply, NestedFieldCopy,
      NestedFieldNoCopy, h]
  | stringFromDataField s =>
    have h := nestedFrom_keyAbsent _ _ habs
    simp only [Definition.path] at h
    simp only [Definition.hasClient] at hc
    cases hk : s.kubeClient with
    | none => exact absurd hk hc
    | some c =>
      simp only [Definition.Apply, stringFromDataFieldDefinition.Apply, hk, NestedString,
        NestedFieldNoCopy, h]
  | mapFromDataField s =>
    have h := nestedFrom_keyAbsent _ _ habs
    simp only [Definition.path] at h
    simp only [Definition.hasClient] at hc
    cases hk : s.kubeClient with
    | none => exact absurd hk hc
    | some c =>
      simp only [Definition.Apply, mapFromDataFieldDefinition.Apply, hk, NestedString,
        NestedFieldNoCopy, h]
  | stringOfMap s =>
    have h := nestedFrom_keyAbsent _ _ habs
    simp only [Definition.path] at h
    simp only [Definition.Apply, stringOfMapDefinition.Apply, NestedFieldNoCopy, h]
  | sliceOfMapsFromPath s =>
    have h := nestedFrom_keyAbsent _ _ habs
    simp only [Definition.path] at h
    simp only [Definition.Apply, sliceOfMapsFromPathDefinition.Apply, NestedSlice,
      NestedFieldNoCopy, h]
  | sliceOfStringsFromPath s =>
    have h := nestedFrom_keyAbsent _ _ habs
    simp only [Definition.path] at h
    simp only [Definition.Apply, sliceOfStringsFromPathDefinition.Apply, NestedSlice,
      NestedFieldNoCopy, h]

/-- Witness of C10: the six variants on `exampleDoc`, whose map at `spec` has no
key `missing`. -/
theorem C10_witness :
    (Definition.string
        { outputName := gostr "", path := [gostr "spec", gostr "missing"] }).Apply exampleDoc
      = .error .notFound ∧
    (Definition.stringFromDataField
        { kubeClient := some (constClient (resourceWithData exampleData)),
          objectType := secretObjectType, outputName := gostr "",
          path := [gostr "spec", gostr "missing"], sourceKey := gostr "user" }).Apply exampleDoc
      = .error .notFound ∧
    (Definition.mapFromDataField
        { kubeClient := some (constClient (resourceWithData exampleData)),
          objectType := stringObjectType, outputName := gostr "", sourceValue := gostr "",
          path := [gostr "spec", gostr "missing", gostr "deeper"] }).Apply exampleDoc
      = .error .notFound ∧
    (Definition.stringOfMap
        { outputName := gostr "x", path := [gostr "missing"] }).Apply exampleDoc
      = .error .notFound ∧
    (Definition.sliceOfMapsFromPath
        { outputName := gostr "env", path := [gostr "spec", gostr "missing"],
          sourceKey := gostr "name", sourceValue := gostr "value" }).Apply exampleDoc
      = .error .notFound ∧
    (Definition.sliceOfStringsFromPath
        { outputName := gostr "names", path := [gostr "spec", gostr "missing"],
          sourceValue := gostr "value" }).Apply exampleDoc
      = .error .notFound :=
  ⟨C10_path_absent _ exampleDoc trivial True.intro,
    C10_path_absent _ exampleDoc (by simp [Definition.hasClient])
      True.intro,
    C10_path_absent _ exampleDoc (by simp [Definition.hasClient])
      True.intro,
    C10_path_absent _ exampleDoc trivial True.intro,
    C10_path_absent _ exampleDoc trivial True.intro,
    C10_path_absent _ exampleDoc trivial True.intro⟩


/-! ## C11: no client configured -/

/-- C11: without a client (`kubeClient` is nil) both dereferencing variants fail
with the error `kubeClient required for this functionality`, for every document
and every `objectType`, `outputName`, `path`, `sourceKey` and `sourceValue`. -/
theorem C11_no_client (t : objectType) (outputName sourceKey sourceValue : GoString)
    (path : List GoString) (u : Unstructured) :
    (stringFromDataFieldDefinition.mk none t outputName path sourceKey).Apply u
      = .error .kubeClientRequired ∧
    (mapFromDataFieldDefinition.mk none t outputName sourceValue path).Apply u
      = .error .kubeClientRequired :=
  ⟨rfl, rfl⟩

/-! ## C12: the output of `stringFromDataFieldDefinition.Apply` -/

theorem NestedFieldNoCopy_two (obj : JSONMap) (k1 k2 : GoString) (m : JSONMap)
    (h : obj.lookup k1 = some (.map m)) :
    NestedFieldNoCopy obj [k1, k2] = .ok (m.lookup k2) := by
  unfold NestedFieldNoCopy
  cases h2 : List.lookup k2 m with
  | none => simp [nestedFrom, h, h2]
  | some v => cases v <;> simp [nestedFrom, h, h2]

/-- C12: every `Value` that `stringFromDataFieldDefinition.Apply` returns has the
single output key `""`, whatever `outputName` and `sourceKey` are, and its content
is the string `data[sourceKey]` of the fetched resource, base64-decoded when the
object type is `Secret`; when the `data` map of the fetched resource has no entry
`sourceKey`, `Apply` fails with `not found`. -/
theorem C12_stringFromDataField_output (d : stringFromDataFieldDefinition) (u : Unstructured) :
    (∀ v, d.Apply u = .ok v →
      v.keys = [gostr ""] ∧
      ∃ kubeClient resourceName otherObj val out,
        d.kubeClient = some kubeClient ∧
        NestedString u.Object d.path = .ok (some resourceName) ∧
        kubeClient (resourceOf d.objectType) (GetNamespace u) resourceName = .ok otherObj ∧
        NestedString otherObj.Object [gostr "data", d.sourceKey] = .ok (some val) ∧
        (if d.objectType = secretObjectType then DecodeString val else .ok val) = .ok out ∧
        v = .anyMap [(gostr "", .node (.str out))]) ∧
    (∀ kubeClient resourceName otherObj m,
      d.kubeClient = some kubeClient →
      NestedString u.Object d.path = .ok (some resourceName) →
      kubeClient (resourceOf d.objectType) (GetNamespace u) resourceName = .ok otherObj →
      otherObj.Object.lookup (gostr "data") = some (.map m) →
      m.lookup d.sourceKey = none →
      d.Apply u = .error .notFound) := by
  constructor
  · intro v h
    obtain ⟨kubeClient, resourceName, otherObj, val, out, hc, hp, hf, hd, ho, hv⟩ :=
      stringFromDataField_ok d u v h
    refine ⟨stringFromDataField_ok_keys d u v h, kubeClient, resourceName, otherObj, val, out,
      hc, hp, hf, hd, ?_, hv⟩
    simpa [decodeFor] using ho
  · intro kubeClient resourceName otherObj m hc hp hf hdata hkey
    have hn : NestedString otherObj.Object [gostr "data", d.sourceKey] = .ok none := by
      simp only [NestedString, NestedFieldNoCopy_two otherObj.Object _ _ m hdata, hkey]
    simp only [stringFromDataFieldDefinition.Apply, hc, hp, hf, hn]

/-- Witness of C12: on the secret `{user: base64(alice), pass: base64(s3cret)}` the
key `user` gives `{"": alice}` although `outputName` is `name`; on a secret without
the key `user`, `not found`. -/
theorem C12_witness :
    ((Value.anyMap [(gostr "", .node (.str (gostr "alice")))]).keys = [gostr ""] ∧
      ∃ kubeClient resourceName otherObj val out,
        (stringFromDataFieldDefinition.mk
            (some (clientWith secretsResource (resourceWithData exampleData)))
            secretObjectType (gostr "name") [gostr "status", gostr "dbCredentials"]
            (gostr "user")).kubeClient = some kubeClient ∧
        NestedString exampleDoc.Object [gostr "status", gostr "dbCredentials"]
          = .ok (some resourceName) ∧
        kubeClient (resourceOf secretObjectType) (GetNamespace exampleDoc) resourceName
          = .ok otherObj ∧
        NestedString otherObj.Object [gostr "data", gostr "user"] = .ok (some val) ∧
        (if secretObjectType = secretObjectType then DecodeString val else .ok val)
          = .ok out ∧
        Value.anyMap [(gostr "", .node (.str (gostr "alice")))]
          = .anyMap [(gostr "", .node (.str out))]) ∧
    (stringFromDataFieldDefinition.mk
        (some (clientWith secretsResource (resourceWithData exampleOtherData)))
        secretObjectType (gostr "name") [gostr "status", gostr "dbCredentials"]
        (gostr "user")).Apply exampleDoc = .error .notFound :=
  ⟨(C12_stringFromDataField_output
      (stringFromDataFieldDefinition.mk
        (some (clientWith secretsResource (resourceWithData exampleData)))
        secretObjectType (gostr "name") [gostr "status", gostr "dbCredentials"] (gostr "user"))
      exampleDoc).1 _ rfl,
    (C12_stringFromDataField_output
      (stringFromDataFieldDefinition.mk
        (some (clientWith secretsResource (resourceWithData exampleOtherData)))
        secretObjectType (gostr "name") [gostr "status", gostr "dbCredentials"] (gostr "user"))
      exampleDoc).2 _ (gostr "creds") (resourceWithData exampleOtherData)
        (strEntries exampleOtherData) rfl rfl rfl rfl rfl⟩

/-! ## C13: `GetPath` -/

/-- C13: for a definition with a non-empty path `GetPath` does not fault; for the
`String`, `SliceOfMapsFromPath` and `SliceOfStringsFromPath` variants it returns
the path without its final segment, a prefix of the path of length
`len(path) - 1`; for the other three variants it returns the path unchanged. -/
theorem C13_GetPath (d : Definition) (hne : d.path ≠ []) :
    ∃ p, d.GetPath = some p ∧
      match d with
      | .string _ | .sliceOfMapsFromPath _ | .sliceOfStringsFromPath _ =>
        p.length = d.path.length - 1 ∧ p <+: d.path ∧ p = d.path.dropLast
      | .stringFromDataField _ | .mapFromDataField _ | .stringOfMap _ => p = d.path := by
  have htrim : ∀ path : List GoString, ∀ h : path ≠ [],
      (if path.length = 0 then none else some (path.take (path.length - 1)))
        = some path.dropLast ∧
      path.dropLast.length = path.length - 1 ∧ path.dropLast <+: path := by
    intro path h
    have hlen : ¬ path.length = 0 := fun e => h (List.length_eq_zero.mp e)
    refine ⟨?_, List.length_dropLast path, List.dropLast_prefix path⟩
    rw [if_neg hlen, List.dropLast_eq_take]
  cases d with
  | string s =>
    obtain ⟨h1, h2, h3⟩ := htrim s.path hne
    exact ⟨s.path.dropLast, h1, h2, h3, rfl⟩
  | stringFromDataField s => exact ⟨s.path, rfl, rfl⟩
  | mapFromDataField s => exact ⟨s.path, rfl, rfl⟩
  | stringOfMap s => exact ⟨s.path, rfl, rfl⟩
  | sliceOfMapsFromPath s =>
    obtain ⟨h1, h2, h3⟩ := htrim s.path hne
    exact ⟨s.path.dropLast, h1, h2, h3, rfl⟩
  | sliceOfStringsFromPath s =>
    obtain ⟨h1, h2, h3⟩ := htrim s.path hne
    exact ⟨s.path.dropLast, h1, h2, h3, rfl⟩

/-- Witness of C13: the path `[spec, env]` is trimmed to `[spec]` by the slice
variant and returned whole by `StringOfMap`. -/
theorem C13_witness :
    (Definition.sliceOfMapsFromPath exampleSliceOfMaps).GetPath = some [gostr "spec"] ∧
    (Definition.stringOfMap
        { outputName := gostr "", path := [gostr "spec", gostr "env"] }).GetPath
      = some [gostr "spec", gostr "env"] ∧
    ∃ p, (Definition.sliceOfMapsFromPath exampleSliceOfMaps).GetPath = some p ∧
      p.length = [gostr "spec", gostr "env"].length - 1 ∧
      p <+: [gostr "spec", gostr "env"] ∧
      p = [gostr "spec", gostr "env"].dropLast :=
  ⟨rfl, rfl, C13_GetPath (.sliceOfMapsFromPath exampleSliceOfMaps) (by decide)⟩

/-! ## C14: the output key of the slice variants -/

/-- C14, refuted as stated: with `outputName` unset and the path `[spec, env]`,
both slice variants succeed with the single output key `""`, not the final path
segment `env`. -/
theorem C14_counterexample :
    (sliceOfMapsFromPathDefinition.mk (gostr "") [gostr "spec", gostr "env"]
        (gostr "name") (gostr "value")).Apply exampleDoc
      = .ok (.anyMap [(gostr "", .node (.map
          [(gostr "A", .str (gostr "1")), (gostr "B", .str (gostr "2"))]))]) ∧
    (sliceOfStringsFromPathDefinition.mk (gostr "") [gostr "spec", gostr "env"]
        (gostr "value")).Apply exampleDoc
      = .ok (.anyMap [(gostr "", .strings [gostr "1", gostr "2"])]) ∧
    gostr "" ≠ gostr "env" ∧
    ¬ (∀ (d : sliceOfMapsFromPathDefinition) (u : Unstructured) (v : Value)
        (hne : d.path ≠ []), d.outputName = [] → d.Apply u = .ok v →
        v.keys = [d.path.getLast hne]) := by
  refine ⟨rfl, rfl, by decide, ?_⟩
  intro hall
  have h := hall (sliceOfMapsFromPathDefinition.mk (gostr "") [gostr "spec", gostr "env"]
    (gostr "name") (gostr "value")) exampleDoc _ (by decide) rfl rfl
  revert h
  decide

/-- C14, amended: every `Value` that `sliceOfMapsFromPathDefinition.Apply` or
`sliceOfStringsFromPathDefinition.Apply` returns has the single output key
`outputName` as it is given, the empty string when `outputName` is unset; the
final path segment is not used as a default. -/
theorem C14_slice_output_key (outputName sourceKey sourceValue : GoString)
    (path : List GoString) (u : Unstructured) :
    (∀ v, (sliceOfMapsFromPathDefinition.mk outputName path sourceKey sourceValue).Apply u
        = .ok v → v.keys = [outputName]) ∧
    (∀ v, (sliceOfStringsFromPathDefinition.mk outputName path sourceValue).Apply u
        = .ok v → v.keys = [outputName]) :=
  ⟨fun v h => sliceOfMaps_ok_keys _ u v h, fun v h => sliceOfStrings_ok_keys _ u v h⟩

/-- Witness of C14 (amended): with `outputName` unset on `[spec, env]` the output
key of both slice variants is `""`. -/
theorem C14_witness :
    (Value.anyMap [(gostr "", .node (.map
        [(gostr "A", .str (gostr "1")), (gostr "B", .str (gostr "2"))]))]).keys
      = [gostr ""] ∧
    (Value.anyMap [(gostr "", .strings [gostr "1", gostr "2"])]).keys = [gostr ""] :=
  ⟨(C14_slice_output_key (gostr "") (gostr "name") (gostr "value")
      [gostr "spec", gostr "env"] exampleDoc).1 _ rfl,
    (C14_slice_output_key (gostr "") (gostr "name") (gostr "value")
      [gostr "spec", gostr "env"] exampleDoc).2 _ rfl⟩

/-! ## C15: a node of the wrong shape -/

theorem strMapLoop_error (m : JSONMap) (acc : List (GoString × GoString))
    (h : ∀ data, m ≠ strEntries data) : strMapLoop m acc = .error .accessor := by
  induction m generalizing acc with
  | nil => exact absurd rfl (h [])
  | cons x rest ih =>
    obtain ⟨k, v⟩ := x
    cases v with
    | str s =>
      simp only [strMapLoop]
      apply ih
      intro data hd
      exact h ((k, s) :: data) (by simp [strEntries, hd])
    | null => simp [strMapLoop]
    | int n => simp [strMapLoop]
    | float f => simp [strMapLoop]
    | bool b => simp [strMapLoop]
    | map m => simp [strMapLoop]
    | slice l => simp [strMapLoop]

theorem NestedSlice_wrong_shape (obj : JSONMap) (path : List GoString) (v : Node)
    (hres : NestedFieldNoCopy obj path = .ok (some v)) (hv : ∀ l, v ≠ .slice l) :
    NestedSlice obj path = .error .accessor := by
  cases v with
  | slice l => exact absurd rfl (hv l)
  | null => simp [NestedSlice, hres]
  | str s => simp [NestedSlice, hres]
  | int n => simp [NestedSlice, hres]
  | float f => simp [NestedSlice, hres]
  | bool b => simp [NestedSlice, hres]
  | map m => simp [NestedSlice, hres]

theorem NestedString_wrong_shape (obj : JSONMap) (path : List GoString) (v : Node)
    (hres : NestedFieldNoCopy obj path = .ok (some v)) (hv : ∀ s, v ≠ .str s) :
    NestedString obj path = .error .accessor := by
  cases v with
  | str s => exact absurd rfl (hv s)
  | null => simp [NestedString, hres]
  | slice l => simp [NestedString, hres]
  | int n => simp [NestedString, hres]
  | float f => simp [NestedString, hres]
  | bool b => simp [NestedString, hres]
  | map m => simp [NestedString, hres]

theorem NestedStringMap_wrong_shape (obj : JSONMap) (k : GoString) (dn : Node)
    (hdata : obj.lookup k = some dn) (hv : ∀ data, dn ≠ .map (strEntries data)) :
    NestedStringMap obj [k] = .error .accessor := by
  cases dn with
  | map m =>
    have hm : ∀ data, m ≠ strEntries data := fun data e => hv data (by rw [e])
    simp only [NestedStringMap, NestedFieldNoCopy_one, hdata, strMapLoop_error m [] hm]
  | null => simp [NestedStringMap, NestedFieldNoCopy_one, hdata]
  | slice l => simp [NestedStringMap, NestedFieldNoCopy_one, hdata]
  | int n => simp [NestedStringMap, NestedFieldNoCopy_one, hdata]
  | float f => simp [NestedStringMap, NestedFieldNoCopy_one, hdata]
  | bool b => simp [NestedStringMap, NestedFieldNoCopy_one, hdata]
  | str s => simp [NestedStringMap, NestedFieldNoCopy_one, hdata]

/-- C15: when the lookup path resolves to a node `v` of the wrong shape, `Apply`
fails with the accessor (type mismatch) error, which is not the error `not found`,
and returns no `Value`: both slice variants when `v` is not a sequence, both
dereferencing variants (with a client) when `v` is not a string, and
`mapFromDataFieldDefinition` when `v` is a name but the `data` section of the
fetched resource is not a map of strings. -/
theorem C15_wrong_shape (u : Unstructured) (path : List GoString) (v : Node)
    (hres : NestedFieldNoCopy u.Object path = .ok (some v)) :
    Err.accessor ≠ Err.notFound ∧
    ((∀ l, v ≠ .slice l) → ∀ outputName sourceKey sourceValue,
      (sliceOfMapsFromPathDefinition.mk outputName path sourceKey sourceValue).Apply u
        = .error .accessor ∧
      (sliceOfStringsFromPathDefinition.mk outputName path sourceValue).Apply u
        = .error .accessor) ∧
    ((∀ s, v ≠ .str s) → ∀ (c : KubeClient) t outputName sourceKey sourceValue,
      (stringFromDataFieldDefinition.mk (some c) t outputName path sourceKey).Apply u
        = .error .accessor ∧
      (mapFromDataFieldDefinition.mk (some c) t outputName sourceValue path).Apply u
        = .error .accessor) ∧
    (∀ (c : KubeClient) t outputName sourceValue resourceName otherObj dn,
      v = .str resourceName →
      c (resourceOf t) (GetNamespace u) resourceName = .ok otherObj →
      otherObj.Object.lookup (gostr "data") = some dn →
      (∀ data, dn ≠ .map (strEntries data)) →
      (mapFromDataFieldDefinition.mk (some c) t outputName sourceValue path).Apply u
        = .error .accessor) := by
  refine ⟨by decide, ?_, ?_, ?_⟩
  · intro hv outputName sourceKey sourceValue
    have h := NestedSlice_wrong_shape u.Object path v hres hv
    constructor
    · simp only [sliceOfMapsFromPathDefinition.Apply, h]
    · simp only [sliceOfStringsFromPathDefinition.Apply, h]
  · intro hv c t outputName sourceKey sourceValue
    have h := NestedString_wrong_shape u.Object path v hres hv
    constructor
    · simp only [stringFromDataFieldDefinition.Apply, h]
    · simp only [mapFromDataFieldDefinition.Apply, h]
  · intro c t outputName sourceValue resourceName otherObj dn hv hf hdata hdn
    subst hv
    have hp : NestedString u.Object path = .ok (some resourceName) := by
      simp only [NestedString, hres]
    simp only [mapFromDataFieldDefinition.Apply, hp, hf,
      NestedStringMap_wrong_shape otherObj.Object _ dn hdata hdn]

/-- Witness of C15: a string at `spec.env` for the slice variants, a map at
`status.dbCredentials` for the dereferencing variants, and a `data` section with a
number for `mapFromDataFieldDefinition`. -/
theorem C15_witness :
    ((sliceOfMapsFromPathDefinition.mk (gostr "env") [gostr "spec", gostr "env"]
        (gostr "name") (gostr "value")).Apply wrongShapeDoc = .error .accessor ∧
      (sliceOfStringsFromPathDefinition.mk (gostr "env") [gostr "spec", gostr "env"]
        (gostr "value")).Apply wrongShapeDoc = .error .accessor) ∧
    ((stringFromDataFieldDefinition.mk (some (constClient (resourceWithData exampleData)))
        secretObjectType (gostr "") [gostr "status", gostr "dbCredentials"]
        (gostr "user")).Apply wrongShapeDoc = .error .accessor ∧
      (mapFromDataFieldDefinition.mk (some (constClient (resourceWithData exampleData)))
        secretObjectType (gostr "") (gostr "")
        [gostr "status", gostr "dbCredentials"]).Apply wrongShapeDoc = .error .accessor) ∧
    (mapFromDataFieldDefinition.mk (some (constClient numericDataResource))
        configMapObjectType (gostr "") (gostr "")
        [gostr "status", gostr "dbCredentials"]).Apply exampleDoc = .error .accessor :=
  ⟨(C15_wrong_shape wrongShapeDoc [gostr "spec", gostr "env"] (.str (gostr "A=1")) rfl).2.1
      (by intro l h; cases h) (gostr "env") (gostr "name") (gostr "value"),
    (C15_wrong_shape wrongShapeDoc [gostr "status", gostr "dbCredentials"]
      (.map [(gostr "name", .str (gostr "creds"))]) rfl).2.2.1
      (by intro s h; cases h) (constClient (resourceWithData exampleData)) secretObjectType
      (gostr "") (gostr "user") (gostr ""),
    (C15_wrong_shape exampleDoc [gostr "status", gostr "dbCredentials"]
      (.str (gostr "creds")) rfl).2.2.2 (constClient numericDataResource) configMapObjectType
      (gostr "") (gostr "") (gostr "creds") numericDataResource
      (.map [(gostr "user", .str (gostr "alice")), (gostr "port", .int 5432)]) rfl rfl rfl
      (by
        intro data h
        have h2 := congrArg (fun n => match n with
          | Node.map m => List.lookup (gostr "port") m
          | _ => none) h
        simp only at h2
        rw [lookup_strEntries] at h2
        have h3 : List.lookup (gostr "port")
            [(gostr "user", Node.str (gostr "alice")), (gostr "port", Node.int 5432)]
            = some (.int 5432) := rfl
        rw [h3] at h2
        cases hl : List.lookup (gostr "port") data with
        | none => rw [hl] at h2; cases h2
        | some s => rw [hl] at h2; simp at h2)⟩

/-! ## C16: a `sourceValue` field that is absent or not a string -/

/-- The loop of `sliceOfStringsFromPathDefinition.Apply` faults on every sequence
that holds a map element without a string at `sourceValue`. -/
theorem sliceOfStrings_loop_faults (d : sliceOfStringsFromPathDefinition) (l : List Node)
    (acc : List GoString)
    (h : ∃ mm, Node.map mm ∈ l ∧ ∀ s, mm.lookup d.sourceValue ≠ some (.str s)) :
    d.loop l acc = none := by
  induction l generalizing acc with
  | nil => obtain ⟨mm, hmm, _⟩ := h; cases hmm
  | cons e rest ih =>
    obtain ⟨mm, hmm, hkey⟩ := h
    have htail : (Node.map mm ∈ rest) → ∀ acc', d.loop rest acc' = none :=
      fun hr acc' => ih acc' ⟨mm, hr, hkey⟩
    by_cases he : e = Node.map mm
    · subst he
      cases hl : List.lookup d.sourceValue mm with
      | none => simp [sliceOfStringsFromPathDefinition.loop, hl]
      | some key =>
        cases key with
        | str s => exact absurd hl (hkey s)
        | null => simp [sliceOfStringsFromPathDefinition.loop, hl]
        | int n => simp [sliceOfStringsFromPathDefinition.loop, hl]
        | float f => simp [sliceOfStringsFromPathDefinition.loop, hl]
        | bool b => simp [sliceOfStringsFromPathDefinition.loop, hl]
        | map m => simp [sliceOfStringsFromPathDefinition.loop, hl]
        | slice s => simp [sliceOfStringsFromPathDefinition.loop, hl]
    · have hr : Node.map mm ∈ rest := by
        rcases List.mem_cons.mp hmm with heq | hr
        · exact absurd heq.symm he
        · exact hr
      cases e with
      | map m' =>
        cases hl : List.lookup d.sourceValue m' with
        | none => simp [sliceOfStringsFromPathDefinition.loop, hl]
        | some key =>
          cases key with
          | str s => simp only [sliceOfStringsFromPathDefinition.loop, hl]; exact htail hr _
          | null => simp [sliceOfStringsFromPathDefinition.loop, hl]
          | int n => simp [sliceOfStringsFromPathDefinition.loop, hl]
          | float f => simp [sliceOfStringsFromPathDefinition.loop, hl]
          | bool b => simp [sliceOfStringsFromPathDefinition.loop, hl]
          | map m => simp [sliceOfStringsFromPathDefinition.loop, hl]
          | slice s => simp [sliceOfStringsFromPathDefinition.loop, hl]
      | null => simp only [sliceOfStringsFromPathDefinition.loop]; exact htail hr _
      | str s => simp only [sliceOfStringsFromPathDefinition.loop]; exact htail hr _
      | int n => simp only [sliceOfStringsFromPathDefinition.loop]; exact htail hr _
      | float f => simp only [sliceOfStringsFromPathDefinition.loop]; exact htail hr _
      | bool b => simp only [sliceOfStringsFromPathDefinition.loop]; exact htail hr _
      | slice s => simp only [sliceOfStringsFromPathDefinition.loop]; exact htail hr _

/-- `sliceOfStringsFromPathDefinition.Apply` faults on every document whose path
resolves to a sequence that holds a map element without a string at `sourceValue`. -/
theorem sliceOfStrings_apply_faults (d : sliceOfStringsFromPathDefinition) (u : Unstructured)
    (l : List Node) (hpath : NestedSlice u.Object d.path = .ok (some l))
    (h : ∃ mm, Node.map mm ∈ l ∧ ∀ s, mm.lookup d.sourceValue ≠ some (.str s)) :
    d.Apply u = .panic := by
  simp only [sliceOfStringsFromPathDefinition.Apply, hpath,
    sliceOfStrings_loop_faults d l [] h]

/-- C16, the code at the failing inputs: with `sourceValue = url`, a field that the
elements of `[{name: A, value: 1}, {name: B, value: 2}]` do not have, and with
`sourceValue = name` on `[{name: A, value: 1}, {name: 7, value: 2}]`, where the
field of the second element is a number, `Apply` neither returns an error nor a
`Value`: the type assertion `mm[d.sourceValue].(string)` faults. -/
theorem C16_sliceOfStrings_faults :
    (sliceOfStringsFromPathDefinition.mk (gostr "names") [gostr "spec", gostr "env"]
        (gostr "url")).Apply exampleDoc = .panic ∧
    (sliceOfStringsFromPathDefinition.mk (gostr "names") [gostr "spec", gostr "env"]
        (gostr "name")).Apply numericNameDoc = .panic ∧
    (∀ e, (sliceOfStringsFromPathDefinition.mk (gostr "names") [gostr "spec", gostr "env"]
        (gostr "name")).Apply numericNameDoc ≠ .error e) ∧
    (∀ v, (sliceOfStringsFromPathDefinition.mk (gostr "names") [gostr "spec", gostr "env"]
        (gostr "name")).Apply numericNameDoc ≠ .ok v) := by
  have h1 : (sliceOfStringsFromPathDefinition.mk (gostr "names") [gostr "spec", gostr "env"]
      (gostr "url")).Apply exampleDoc = .panic :=
    sliceOfStrings_apply_faults _ exampleDoc _ rfl
      ⟨[(gostr "name", .str (gostr "A")), (gostr "value", .str (gostr "1"))],
        by simp, by
          intro s hs
          have hn : List.lookup (gostr "url")
              [(gostr "name", Node.str (gostr "A")), (gostr "value", .str (gostr "1"))]
              = none := rfl
          simp only at hs
          rw [hn] at hs
          cases hs⟩
  have h2 : (sliceOfStringsFromPathDefinition.mk (gostr "names") [gostr "spec", gostr "env"]
      (gostr "name")).Apply numericNameDoc = .panic := rfl
  refine ⟨h1, h2, ?_, ?_⟩
  · intro e he; rw [h2] at he; cases he
  · intro v hv; rw [h2] at hv; cases hv

/-! ## C17: the one fetch of the dereferencing variants -/

/-- C17: `Apply` of a dereferencing variant consults the client at one triple only,
the resource derived from `objectType`, the namespace of the document and the
string at the lookup path: two clients that give the same answer at that triple
give the same outcome of `Apply` on the document, however they differ elsewhere. -/
theorem C17_fetch_scope (t : objectType) (outputName sourceKey sourceValue : GoString)
    (path : List GoString) (c c' : KubeClient) (u : Unstructured)
    (hagree : ∀ resourceName, NestedString u.Object path = .ok (some resourceName) →
      c (resourceOf t) (GetNamespace u) resourceName
        = c' (resourceOf t) (GetNamespace u) resourceName) :
    (stringFromDataFieldDefinition.mk (some c) t outputName path sourceKey).Apply u
      = (stringFromDataFieldDefinition.mk (some c') t outputName path sourceKey).Apply u ∧
    (mapFromDataFieldDefinition.mk (some c) t outputName sourceValue path).Apply u
      = (mapFromDataFieldDefinition.mk (some c') t outputName sourceValue path).Apply u := by
  cases hp : NestedString u.Object path with
  | error e =>
    constructor
    · simp only [stringFromDataFieldDefinition.Apply, hp]
    · simp only [mapFromDataFieldDefinition.Apply, hp]
  | ok found =>
    cases found with
    | none =>
      constructor
      · simp only [stringFromDataFieldDefinition.Apply, hp]
      · simp only [mapFromDataFieldDefinition.Apply, hp]
    | some resourceName =>
      have h := hagree resourceName hp
      constructor
      · simp only [stringFromDataFieldDefinition.Apply, hp, h]
      · simp only [mapFromDataFieldDefinition.Apply, hp, h]
        simp only [loop_congr
          (mapFromDataFieldDefinition.mk (some c) t outputName sourceValue path)
          (mapFromDataFieldDefinition.mk (some c') t outputName sourceValue path) rfl rfl]

/-- Witness of C17: a client that knows only the secret `creds` of the namespace `ns`
and a client that answers every request with that secret. -/
theorem C17_witness :
    (stringFromDataFieldDefinition.mk
        (some (clientWith secretsResource (resourceWithData exampleData)))
        secretObjectType (gostr "") [gostr "status", gostr "dbCredentials"]
        (gostr "user")).Apply exampleDoc
      = (stringFromDataFieldDefinition.mk
        (some (constClient (resourceWithData exampleData)))
        secretObjectType (gostr "") [gostr "status", gostr "dbCredentials"]
        (gostr "user")).Apply exampleDoc ∧
    (mapFromDataFieldDefinition.mk
        (some (clientWith secretsResource (resourceWithData exampleData)))
        secretObjectType (gostr "") (gostr "") [gostr "status", gostr "dbCredentials"]).Apply
        exampleDoc
      = (mapFromDataFieldDefinition.mk
        (some (constClient (resourceWithData exampleData)))
        secretObjectType (gostr "") (gostr "") [gostr "status", gostr "dbCredentials"]).Apply
        exampleDoc :=
  C17_fetch_scope secretObjectType (gostr "") (gostr "user") (gostr "")
    [gostr "status", gostr "dbCredentials"]
    (clientWith secretsResource (resourceWithData exampleData))
    (constClient (resourceWithData exampleData)) exampleDoc
    (by
      intro resourceName h
      have hp : NestedString exampleDoc.Object [gostr "status", gostr "dbCredentials"]
          = .ok (some (gostr "creds")) := rfl
      rw [hp] at h
      cases h
      rfl)

/-! ## C18: the `StringOfMap` variant -/

/-- C18: for a `stringOfMapDefinition` with a non-empty path that resolves to a
node `v` of any shape, `Apply` returns the `Value` with the single output key
`outputName`, or the last path segment when `outputName` is empty, whose content
is `v` itself. -/
theorem C18_stringOfMap_apply (d : stringOfMapDefinition) (u : Unstructured) (v : Node)
    (hne : d.path ≠ [])
    (hres : NestedFieldNoCopy u.Object d.path = .ok (some v)) :
    d.Apply u = .ok (.anyMap
      [(if d.outputName = [] then d.path.getLast hne else d.outputName, .node v)]) := by
  by_cases ho : d.outputName = []
  · have hlast : d.path.getLast? = some (d.path.getLast hne) :=
      List.getLast?_eq_getLast _ hne
    simp only [stringOfMapDefinition.Apply, hres, ho, List.length_nil, if_true, hlast]
  · have hlen : ¬ d.outputName.length = 0 := fun h => ho (List.length_eq_zero.mp h)
    simp only [stringOfMapDefinition.Apply, hres, hlen, ho, if_false]

/-- Witness of C18: the map at `[status]`, the sequence at `[spec, env]` under the
name `vars`, and the number at `[spec, port]` are returned as they are. -/
theorem C18_witness :
    (stringOfMapDefinition.mk (gostr "") [gostr "status"]).Apply exampleDoc
      = .ok (.anyMap [(gostr "status",
          .node (.map [(gostr "dbCredentials", .str (gostr "creds"))]))]) ∧
    (stringOfMapDefinition.mk (gostr "vars") [gostr "spec", gostr "env"]).Apply exampleDoc
      = .ok (.anyMap [(gostr "vars", .node (.slice
          [ .map [(gostr "name", .str (gostr "A")), (gostr "value", .str (gostr "1"))],
            .map [(gostr "name", .str (gostr "B")), (gostr "value", .str (gostr "2"))] ]))]) ∧
    (stringOfMapDefinition.mk (gostr "") [gostr "spec", gostr "port"]).Apply exampleDoc
      = .ok (.anyMap [(gostr "port", .node (.int 5432))]) :=
  ⟨C18_stringOfMap_apply (stringOfMapDefinition.mk (gostr "") [gostr "status"]) exampleDoc
      _ (by decide) rfl,
    C18_stringOfMap_apply (stringOfMapDefinition.mk (gostr "vars") [gostr "spec", gostr "env"])
      exampleDoc _ (by decide) rfl,
    C18_stringOfMap_apply (stringOfMapDefinition.mk (gostr "") [gostr "spec", gostr "port"])
      exampleDoc _ (by decide) rfl⟩

/-! ## C19: the `sourceValue` filter of `mapFromDataFieldDefinition` -/

/-- With a filter, the loop reads the entry of the filter key only. -/
theorem loop_filtered (d : mapFromDataFieldDefinition) (data acc : List (GoString × GoString))
    (hsv : d.sourceValue ≠ []) (hkeys : (data.map Prod.fst).Nodup) :
    d.loop data acc =
      match data.lookup d.sourceValue with
      | none => .ok acc
      | some v =>
        match decodeFor d.objectType v with
        | .error e => .error e
        | .ok b => .ok (mapSet acc d.sourceValue b) := by
  have hlen : ¬ d.sourceValue.length = 0 := fun h => hsv (List.length_eq_zero.mp h)
  induction data generalizing acc with
  | nil => rfl
  | cons x rest ih =>
    obtain ⟨k0, v0⟩ := x
    simp only [List.map_cons, List.nodup_cons] at hkeys
    by_cases hk : k0 = d.sourceValue
    · have hadm : d.admits k0 := Or.inr hk
      have hnone : rest.lookup d.sourceValue = none :=
        lookup_eq_none_of_not_mem rest _ (hk ▸ hkeys.1)
      rw [loop_cons_keep d k0 v0 rest acc hadm, lookup_cons_ite, if_pos hk.symm]
      simp only
      cases hb : decodeFor d.objectType v0 with
      | error e => rfl
      | ok b =>
        simp only
        rw [ih _ hkeys.2, hnone, hk]
    · have hadm : ¬ d.admits k0 := by
        rintro (h | h)
        · exact hlen h
        · exact hk h
      rw [loop_cons_skip d k0 v0 rest acc hadm, lookup_cons_ite,
        if_neg (fun e => hk e.symm)]
      exact ih acc hkeys.2

/-- C19: with `objectType = Secret` and a non-empty `sourceValue` filter `k`, `Apply`
of `mapFromDataFieldDefinition` decodes `data[k]` and nothing else: it returns the
empty map when `data` has no key `k`, the decode error when `data[k]` is not valid
base64, and `{k: decoding of data[k]}` otherwise, whatever the other entries of
`data` are; so two `data` maps that agree at `k` give the same outcome. -/
theorem C19_filter_reads_one_entry (outputName k : GoString) (path : List GoString)
    (c c' : KubeClient) (u : Unstructured) (resourceName : GoString)
    (otherObj otherObj' : Unstructured) (data data' : List (GoString × GoString))
    (hk : k ≠ [])
    (hpath : NestedString u.Object path = .ok (some resourceName))
    (hfetch : c (resourceOf secretObjectType) (GetNamespace u) resourceName = .ok otherObj)
    (hfetch' : c' (resourceOf secretObjectType) (GetNamespace u) resourceName = .ok otherObj')
    (hdata : otherObj.Object.lookup (gostr "data") = some (.map (strEntries data)))
    (hdata' : otherObj'.Object.lookup (gostr "data") = some (.map (strEntries data')))
    (hkeys : (data.map Prod.fst).Nodup) (hkeys' : (data'.map Prod.fst).Nodup)
    (hagree : data.lookup k = data'.lookup k) :
    (mapFromDataFieldDefinition.mk (some c) secretObjectType outputName k path).Apply u
      = (match data.lookup k with
        | none => .ok (.strMap [])
        | some v =>
          match DecodeString v with
          | .error e => .error e
          | .ok b => .ok (.strMap [(k, b)])) ∧
    (mapFromDataFieldDefinition.mk (some c) secretObjectType outputName k path).Apply u
      = (mapFromDataFieldDefinition.mk (some c') secretObjectType outputName k path).Apply u := by
  have key : ∀ (c₀ : KubeClient) (o : Unstructured) (dt : List (GoString × GoString)),
      c₀ (resourceOf secretObjectType) (GetNamespace u) resourceName = .ok o →
      o.Object.lookup (gostr "data") = some (.map (strEntries dt)) →
      (dt.map Prod.fst).Nodup →
      (mapFromDataFieldDefinition.mk (some c₀) secretObjectType outputName k path).Apply u
        = (match dt.lookup k with
          | none => .ok (.strMap [])
          | some v =>
            match DecodeString v with
            | .error e => .error e
            | .ok b => .ok (.strMap [(k, b)])) := by
    intro c₀ o dt hf hd hn
    have hl := loop_filtered
      (mapFromDataFieldDefinition.mk (some c₀) secretObjectType outputName k path) dt [] hk hn
    simp only [mapFromDataFieldDefinition.Apply, hpath, hf,
      NestedStringMap_data o.Object dt hd hn, hl]
    cases hlk : List.lookup k dt with
    | none => rfl
    | some v =>
      simp only [decodeFor, if_true]
      cases DecodeString v <;> rfl
  refine ⟨key c otherObj data hfetch hdata hkeys, ?_⟩
  rw [key c otherObj data hfetch hdata hkeys, key c' otherObj' data' hfetch' hdata' hkeys',
    hagree]

/-- Witness of C19: with the filter `user`, the secret `{user: base64(alice), pass: "!!!"}`,
whose other entry is not base64, gives `{user: alice}`, as the secret
`{user: base64(alice), pass: base64(s3cret)}` does. -/
theorem C19_witness :
    ((mapFromDataFieldDefinition.mk
        (some (clientWith secretsResource (resourceWithData exampleBadData)))
        secretObjectType (gostr "") (gostr "user")
        [gostr "status", gostr "dbCredentials"]).Apply exampleDoc
      = (match exampleBadData.lookup (gostr "user") with
        | none => .ok (.strMap [])
        | some v =>
          match DecodeString v with
          | .error e => .error e
          | .ok b => .ok (.strMap [(gostr "user", b)])) ∧
      (mapFromDataFieldDefinition.mk
        (some (clientWith secretsResource (resourceWithData exampleBadData)))
        secretObjectType (gostr "") (gostr "user")
        [gostr "status", gostr "dbCredentials"]).Apply exampleDoc
      = (mapFromDataFieldDefinition.mk
        (some (clientWith secretsResource (resourceWithData exampleData)))
        secretObjectType (gostr "") (gostr "user")
        [gostr "status", gostr "dbCredentials"]).Apply exampleDoc) ∧
    (mapFromDataFieldDefinition.mk
        (some (clientWith secretsResource (resourceWithData exampleBadData)))
        secretObjectType (gostr "") (gostr "user")
        [gostr "status", gostr "dbCredentials"]).Apply exampleDoc
      = .ok (.strMap [(gostr "user", gostr "alice")]) :=
  ⟨C19_filter_reads_one_entry (gostr "") (gostr "user") [gostr "status", gostr "dbCredentials"]
      (clientWith secretsResource (resourceWithData exampleBadData))
      (clientWith secretsResource (resourceWithData exampleData)) exampleDoc (gostr "creds")
      (resourceWithData exampleBadData) (resourceWithData exampleData)
      exampleBadData exampleData (by decide) rfl rfl rfl rfl rfl (by decide) (by decide) rfl,
    rfl⟩

/-! ## C20: key collisions in `sliceOfMapsFromPathDefinition.Apply` -/

/-- C20: for a path that resolves to a sequence whose map elements all have a string
at `sourceKey`, also when several of them have the same string, `Apply` succeeds
with `{outputName: m}` where `m` holds for a key the `sourceValue` field of the last
map element with that key, null when that element has no such field, and the size
of `m` is the number of distinct `sourceKey` strings among the map elements. -/
theorem C20_key_collisions (d : sliceOfMapsFromPathDefinition) (u : Unstructured)
    (l : List Node)
    (hpath : NestedSlice u.Object d.path = .ok (some l))
    (hall : ∀ mm, Node.map mm ∈ l → ∃ ks, mm.lookup d.sourceKey = some (.str ks)) :
    ∃ m, d.Apply u = .ok (.anyMap [(d.outputName, .node (.map m))]) ∧
      (∀ front mm back ks, l = front ++ Node.map mm :: back →
        mm.lookup d.sourceKey = some (.str ks) →
        (∀ mm', Node.map mm' ∈ back → mm'.lookup d.sourceKey ≠ some (.str ks)) →
        m.lookup ks = some ((mm.lookup d.sourceValue).getD .null) ∧
        (mm.lookup d.sourceValue = none → m.lookup ks = some .null)) ∧
      m.length = ((l.filterMap d.pair).map Prod.fst).dedup.length := by
  refine ⟨(l.filterMap d.pair).foldl (fun m p => mapSet m p.1 p.2) [], ?_, ?_, ?_⟩
  · simp only [sliceOfMapsFromPathDefinition.Apply, hpath, sliceOfMaps_loop_eq d l [] hall]
  · intro front mm back ks hl hks hlast
    have hp : d.pair (.map mm) = some (ks, (mm.lookup d.sourceValue).getD .null) := by
      simp [sliceOfMapsFromPathDefinition.pair, hks]
    have hback : ks ∉ (back.filterMap d.pair).map Prod.fst := by
      rw [mem_keys_pairs]
      rintro ⟨mm', hm', hk'⟩
      exact hlast mm' hm' hk'
    have hlook : ((l.filterMap d.pair).foldl (fun m p => mapSet m p.1 p.2) []).lookup ks
        = some ((mm.lookup d.sourceValue).getD .null) := by
      rw [hl, List.filterMap_append, List.filterMap_cons, hp]
      exact foldl_mapSet_lookup_last _ _ [] ks _ hback
    refine ⟨hlook, fun hnone => ?_⟩
    rw [hlook, hnone]
    rfl
  · have hnodup := foldl_mapSet_nodup (l.filterMap d.pair) [] (by simp)
    have hperm : List.Perm
        (((l.filterMap d.pair).foldl (fun m p => mapSet m p.1 p.2) []).map Prod.fst)
        ((l.filterMap d.pair).map Prod.fst).dedup := by
      rw [List.perm_ext_iff_of_nodup hnodup (List.nodup_dedup _)]
      intro k
      rw [foldl_mapSet_keys, List.mem_dedup]
      simp
    have := hperm.length_eq
    simpa using this

/-- Witness of C20: `[{name: A, value: 1}, {name: A, value: 2}]` gives `{env: {A: 2}}`,
a map of size one, and `[{name: A, value: 1}, {name: B}]` gives `{env: {A: 1, B: null}}`. -/
theorem C20_witness :
    exampleSliceOfMaps.Apply duplicateNameDoc
      = .ok (.anyMap [(gostr "env", .node (.map [(gostr "A", .str (gostr "2"))]))]) ∧
    exampleSliceOfMaps.Apply missingValueDoc
      = .ok (.anyMap [(gostr "env", .node (.map
          [(gostr "A", .str (gostr "1")), (gostr "B", .null)]))]) ∧
    ∃ m, exampleSliceOfMaps.Apply duplicateNameDoc
        = .ok (.anyMap [(exampleSliceOfMaps.outputName, .node (.map m))]) ∧
      (∀ front mm back ks,
        [Node.map [(gostr "name", .str (gostr "A")), (gostr "value", .str (gostr "1"))],
          Node.map [(gostr "name", .str (gostr "A")), (gostr "value", .str (gostr "2"))]]
          = front ++ Node.map mm :: back →
        mm.lookup exampleSliceOfMaps.sourceKey = some (.str ks) →
        (∀ mm', Node.map mm' ∈ back →
          mm'.lookup exampleSliceOfMaps.sourceKey ≠ some (.str ks)) →
        m.lookup ks = some ((mm.lookup exampleSliceOfMaps.sourceValue).getD .null) ∧
        (mm.lookup exampleSliceOfMaps.sourceValue = none → m.lookup ks = some .null)) ∧
      m.length = ((List.filterMap exampleSliceOfMaps.pair
        [Node.map [(gostr "name", .str (gostr "A")), (gostr "value", .str (gostr "1"))],
          Node.map [(gostr "name", .str (gostr "A")), (gostr "value", .str (gostr "2"))]]).map
        Prod.fst).dedup.length :=
  ⟨rfl, rfl,
    C20_key_collisions exampleSliceOfMaps duplicateNameDoc _ rfl (by
      intro mm hmm
      simp only [List.mem_cons, Node.map.injEq, List.mem_singleton, List.not_mem_nil,
        or_false] at hmm
      rcases hmm with rfl | rfl
      · exact ⟨gostr "A", rfl⟩
      · exact ⟨gostr "A", rfl⟩)⟩

end Binding
